import Mathlib

/-! FileLock: serialized file access with fatal escalation of denials.

A shallow embedding of `filelock.go`.  The nine exported wrappers
(`Move`, `Copy`, `CopyNewtimes`, `Rename`, `Remove`, `ReadFile`,
`WriteFileWithoutChangeTime`, `WriteFile`, `WriteFileByReader`) and the
classifier `isDenied` are translated statement by statement.  What the
package imports and does not define is kept abstract:

* Go `error` values are modelled by what the code can observe of them:
  the text of `Error()` and the answers of `errors.Is` along the `Unwrap` chain;
* the delegates (`os.Rename`, `os.RemoveAll`, `os.ReadFile` and the
  `gulu.File` helpers) are fields of an environment, functions on an
  arbitrary file system state;
* `logging.LogFatalf` records its call and then either terminates the
  process or returns, as the environment says;
* `sync.Mutex` is a boolean: `Lock` on a held mutex never returns.

Two further parts serve single statements: a file system modelled from the
spec, on which writing and reading back is stated, and an interleaving
semantics in which any number of threads take the steps of the wrappers, read
off the wrappers themselves, one at a time.
-/

namespace FileLock

/-! ## Go errors -/

/-- The sentinels of package `os` that the development asks `errors.Is` about. -/
inductive Sentinel where
  | ErrPermission
  | ErrNotExist
  deriving DecidableEq, Repr

/-- One link of an `Unwrap` chain: the text its `Error()` method returns and
whether this very value matches `os.ErrPermission` resp. `os.ErrNotExist`
(by `==` or by its own `Is` method, as `syscall.Errno` does). -/
structure ErrNode where
  text : String
  isPermission : Bool
  isNotExist : Bool
  deriving DecidableEq, Repr

/-- A non-nil Go `error`: the outermost value followed by the values reached by
repeated `Unwrap()`. -/
structure GoError where
  node : ErrNode
  unwrapped : List ErrNode
  deriving DecidableEq, Repr

/-- Method `Error()` of the outermost value. -/
def GoError.Error (e : GoError) : String := e.node.text

/-- Whether a single value of the chain matches the sentinel. -/
def ErrNode.matchesSentinel (n : ErrNode) : Sentinel → Bool
  | .ErrPermission => n.isPermission
  | .ErrNotExist => n.isNotExist

/-- Go `errors.Is(err, target)` for a sentinel target: walks the `Unwrap`
chain and reports whether some value on it matches. -/
def errors_Is (e : GoError) (target : Sentinel) : Bool :=
  (e.node :: e.unwrapped).any (fun n => n.matchesSentinel target)

/-- Go `errors.New(text)`: matches no sentinel, wraps nothing. -/
def errors_New (text : String) : GoError :=
  { node := { text := text, isPermission := false, isNotExist := false }, unwrapped := [] }

/-- A `syscall.Errno` meaning "not found" (`ENOENT`), with the text the
platform gives it; its `Is` method accepts `os.ErrNotExist` only. -/
def syscall_ENOENT (text : String) : GoError :=
  { node := { text := text, isPermission := false, isNotExist := true }, unwrapped := [] }

/-- A `syscall.Errno` meaning "permission denied" (`EACCES`, `EPERM`), with the
text the platform gives it; its `Is` method accepts `os.ErrPermission` only. -/
def syscall_EACCES (text : String) : GoError :=
  { node := { text := text, isPermission := true, isNotExist := false }, unwrapped := [] }

/-- Go `&fs.PathError{Op, Path, Err}`: `Error()` is `Op + " " + Path + ": " + Err.Error()`
and `Unwrap()` is `Err`. -/
def PathError (op path : String) (err : GoError) : GoError :=
  { node := { text := op ++ " " ++ path ++ ": " ++ err.Error,
              isPermission := false, isNotExist := false },
    unwrapped := err.node :: err.unwrapped }

/-- Go `&os.LinkError{Op, Old, New, Err}`: `Error()` is
`Op + " " + Old + " " + New + ": " + Err.Error()` and `Unwrap()` is `Err`. -/
def LinkError (op old new : String) (err : GoError) : GoError :=
  { node := { text := op ++ " " ++ old ++ " " ++ new ++ ": " ++ err.Error,
              isPermission := false, isNotExist := false },
    unwrapped := err.node :: err.unwrapped }

/-! ## Go strings -/

/-- Go `unicode.ToLower`: ASCII is handled in code (`A`..`Z` are shifted by
`a - A`, every other ASCII rune is returned as is); for the other runes the
case table of package `unicode` is consulted, which is the parameter
`caseRanges`. -/
def unicode_ToLower (caseRanges : Char → Char) (r : Char) : Char :=
  if r.toNat ≤ 127 then
    if 65 ≤ r.toNat ∧ r.toNat ≤ 90 then Char.ofNat (r.toNat + 32) else r
  else caseRanges r

/-- Go `strings.ToLower`: every rune mapped through `unicode.ToLower`. -/
def strings_ToLower (caseRanges : Char → Char) (s : String) : String :=
  String.mk (s.data.map (unicode_ToLower caseRanges))

/-- Whether the runes `sub` stand at the very start of `s`. -/
def matchesAt : List Char → List Char → Bool
  | _, [] => true
  | [], _ :: _ => false
  | c :: cs, p :: ps => c == p && matchesAt cs ps

/-- Whether `sub` occurs in `s` at some offset. -/
def containsChars : List Char → List Char → Bool
  | [], sub => matchesAt [] sub
  | c :: cs, sub => matchesAt (c :: cs) sub || containsChars cs sub

/-- Go `strings.Contains(s, substr)`. -/
def strings_Contains (s substr : String) : Bool :=
  containsChars s.data substr.data

/-! ## The classifier -/

/-- Source `isDenied`: `nil` is not a denial; an error that is or wraps
`os.ErrPermission` is; otherwise the lowercased text is searched for the two
phrases. -/
def isDenied (caseRanges : Char → Char) (err : Option GoError) : Bool :=
  match err with
  | none => false
  | some e =>
    if errors_Is e Sentinel.ErrPermission then
      true
    else
      let errMsg := strings_ToLower caseRanges e.Error
      strings_Contains errMsg "access is denied" ||
        strings_Contains errMsg "used by another process"

/-! ## Process state, the gate and the fatal logger -/

/-- One call of `logging.LogFatalf`: the exit code and the formatted message. -/
structure FatalCall where
  exitCode : Nat
  message : String
  deriving DecidableEq, Repr

/-- The kinds of step a wrapper takes. -/
inductive StepKind where
  | lock
  | delegate
  | classify
  | fatal
  | unlock
  deriving DecidableEq, Repr

/-- A step of the history, with the state of the gate right after it. -/
structure Step where
  kind : StepKind
  gateHeld : Bool
  deriving DecidableEq, Repr

/-- State of the process as the package sees it: the file system (owned by the
delegates), the package variable `RWLock` (`true` when held), the calls made to
`logging.LogFatalf`, and a history of the steps taken (kept for stating
properties only; the Go code has no such variable). -/
structure World (FS : Type) where
  fs : FS
  gate : Bool
  fatals : List FatalCall
  history : List Step

/-- How a call ends: it returns a value; the process is terminated by the
fatal logger (`os.Exit`, deferred calls are not run); the Go runtime aborts
(`Unlock` of a mutex that is not held); or the call waits for the gate for ever. -/
inductive Outcome (FS α : Type) where
  | returned (val : α) (w : World FS)
  | exited (code : Nat) (w : World FS)
  | crashed (w : World FS)
  | blocked

/-- A computation on the process state. -/
def Proc (FS α : Type) : Type := World FS → Outcome FS α

/-- Returning a value without touching the state. -/
def Proc.pure {FS α : Type} (a : α) : Proc FS α := fun w => Outcome.returned a w

/-- Sequencing: the second computation runs only if the first one returns. -/
def Proc.bind {FS α β : Type} (m : Proc FS α) (f : α → Proc FS β) : Proc FS β := fun w =>
  match m w with
  | Outcome.returned a w1 => f a w1
  | Outcome.exited c w1 => Outcome.exited c w1
  | Outcome.crashed w1 => Outcome.crashed w1
  | Outcome.blocked => Outcome.blocked

instance {FS : Type} : Monad (Proc FS) where
  pure := Proc.pure
  bind := Proc.bind

/-- Go `defer cleanup()` placed in front of `body`: `cleanup` runs when `body`
returns, and the value returned is that of `body`; it does not run when the
process has been terminated inside `body`. -/
def withDefer {FS α : Type} (cleanup : Proc FS Unit) (body : Proc FS α) : Proc FS α := do
  let a ← body
  cleanup
  pure a

/-- Appends a step to the history, with the gate as it is now. -/
def World.note {FS : Type} (w : World FS) (k : StepKind) : World FS :=
  { w with history := w.history ++ [{ kind := k, gateHeld := w.gate }] }

/-- Go `RWLock.Lock()`: takes the gate when it is free, never returns when it is held. -/
def RWLock_Lock {FS : Type} : Proc FS Unit := fun w =>
  if w.gate then
    Outcome.blocked
  else
    Outcome.returned () (World.note { w with gate := true } StepKind.lock)

/-- Go `RWLock.Unlock()`: frees the gate; on a gate that is not held the runtime aborts. -/
def RWLock_Unlock {FS : Type} : Proc FS Unit := fun w =>
  if w.gate then
    Outcome.returned () (World.note { w with gate := false } StepKind.unlock)
  else
    Outcome.crashed w

/-- A delegate call: the delegate acts on the file system only. -/
def callDelegate {FS α : Type} (d : FS → α × FS) : Proc FS α := fun w =>
  Outcome.returned (d w.fs).1 (World.note { w with fs := (d w.fs).2 } StepKind.delegate)

/-- Marks the point where the wrapper evaluates `isDenied(err)` (history only). -/
def atClassify {FS : Type} : Proc FS Unit := fun w =>
  Outcome.returned () (World.note w StepKind.classify)

/-- Package `logging`, `LogFatalf(exitCode, format, args...)`: the call is
recorded with the formatted message; then the process exits with `exitCode`,
unless `returns` is set (a logger that comes back, as under a test double). -/
def logging_LogFatalf {FS : Type} (returns : Bool) (exitCode : Nat) (message : String) :
    Proc FS Unit := fun w =>
  let w1 := World.note
    { w with fatals := w.fatals ++ [{ exitCode := exitCode, message := message }] } StepKind.fatal
  if returns then Outcome.returned () w1 else Outcome.exited exitCode w1

/-- Rendering of an `error` argument under the verb `%s`. -/
def fmtErr : Option GoError → String
  | none => "%!s(<nil>)"
  | some e => e.Error

/-- What the package imports: the case table of `unicode`, the constant
`logging.ExitCodeFileSysErr`, whether the fatal logger comes back, and the
delegates, acting on a file system state of type `FS`; `R` stands for `io.Reader`. -/
structure Env (FS R : Type) where
  caseRanges : Char → Char
  ExitCodeFileSysErr : Nat
  fatalReturns : Bool
  os_Rename : String → String → FS → Option GoError × FS
  gulu_File_Copy : String → String → FS → Option GoError × FS
  gulu_File_CopyNewtimes : String → String → FS → Option GoError × FS
  os_RemoveAll : String → FS → Option GoError × FS
  os_ReadFile : String → FS → (List UInt8 × Option GoError) × FS
  gulu_File_WriteFileSaferWithoutChangeTime :
    String → List UInt8 → Nat → FS → Option GoError × FS
  gulu_File_WriteFileSafer : String → List UInt8 → Nat → FS → Option GoError × FS
  gulu_File_WriteFileSaferByReader : String → R → Nat → FS → Option GoError × FS

/-- The call `logging.LogFatalf(logging.ExitCodeFileSysErr, ...)` of the wrappers. -/
def LogFatalf {FS R : Type} (env : Env FS R) (message : String) : Proc FS Unit :=
  logging_LogFatalf env.fatalReturns env.ExitCodeFileSysErr message

/-! ## The wrappers -/

section Wrappers

variable {FS R : Type}

/-- Source `Move`. -/
def Move (env : Env FS R) (src dest : String) : Proc FS (Option GoError) :=
  if src = dest then
    pure none
  else do
    RWLock_Lock
    withDefer RWLock_Unlock do
      let err ← callDelegate (env.os_Rename src dest)
      atClassify
      if isDenied env.caseRanges err then do
        LogFatalf env ("move [src=" ++ src ++ ", dest=" ++ dest ++ "] failed: " ++ fmtErr err)
        pure err
      else
        pure err

/-- Source `Copy`. -/
def Copy (env : Env FS R) (src dest : String) : Proc FS (Option GoError) := do
  RWLock_Lock
  withDefer RWLock_Unlock do
    let err ← callDelegate (env.gulu_File_Copy src dest)
    atClassify
    if isDenied env.caseRanges err then do
      LogFatalf env ("copy [src=" ++ src ++ ", dest=" ++ dest ++ "] failed: " ++ fmtErr err)
      pure err
    else
      pure err

/-- Source `CopyNewtimes`. -/
def CopyNewtimes (env : Env FS R) (src dest : String) : Proc FS (Option GoError) := do
  RWLock_Lock
  withDefer RWLock_Unlock do
    let err ← callDelegate (env.gulu_File_CopyNewtimes src dest)
    atClassify
    if isDenied env.caseRanges err then do
      LogFatalf env ("copy [src=" ++ src ++ ", dest=" ++ dest ++ "] failed: " ++ fmtErr err)
      pure err
    else
      pure err

/-- Source `Rename`. -/
def Rename (env : Env FS R) (p newP : String) : Proc FS (Option GoError) := do
  RWLock_Lock
  withDefer RWLock_Unlock do
    let err ← callDelegate (env.os_Rename p newP)
    atClassify
    if isDenied env.caseRanges err then do
      LogFatalf env ("rename [p=" ++ p ++ ", newP=" ++ newP ++ "] failed: " ++ fmtErr err)
      pure err
    else
      pure err

/-- Source `Remove`. -/
def Remove (env : Env FS R) (p : String) : Proc FS (Option GoError) := do
  RWLock_Lock
  withDefer RWLock_Unlock do
    let err ← callDelegate (env.os_RemoveAll p)
    atClassify
    if isDenied env.caseRanges err then do
      LogFatalf env ("remove file [" ++ p ++ "] failed: " ++ fmtErr err)
      pure err
    else
      pure err

/-- Source `ReadFile`. -/
def ReadFile (env : Env FS R) (filePath : String) :
    Proc FS (List UInt8 × Option GoError) := do
  RWLock_Lock
  withDefer RWLock_Unlock do
    let (data, err) ← callDelegate (env.os_ReadFile filePath)
    atClassify
    if isDenied env.caseRanges err then do
      LogFatalf env ("read file [" ++ filePath ++ "] failed: " ++ fmtErr err)
      pure (data, err)
    else
      pure (data, err)

/-- Source `WriteFileWithoutChangeTime`. -/
def WriteFileWithoutChangeTime (env : Env FS R) (filePath : String) (data : List UInt8) :
    Proc FS (Option GoError) := do
  RWLock_Lock
  withDefer RWLock_Unlock do
    let err ← callDelegate (env.gulu_File_WriteFileSaferWithoutChangeTime filePath data 0o644)
    atClassify
    if isDenied env.caseRanges err then do
      LogFatalf env ("write file [" ++ filePath ++ "] failed: " ++ fmtErr err)
      pure err
    else
      pure err

/-- Source `WriteFile`. -/
def WriteFile (env : Env FS R) (filePath : String) (data : List UInt8) :
    Proc FS (Option GoError) := do
  RWLock_Lock
  withDefer RWLock_Unlock do
    let err ← callDelegate (env.gulu_File_WriteFileSafer filePath data 0o644)
    atClassify
    if isDenied env.caseRanges err then do
      LogFatalf env ("write file [" ++ filePath ++ "] failed: " ++ fmtErr err)
      pure err
    else
      pure err

/-- Source `WriteFileByReader`. -/
def WriteFileByReader (env : Env FS R) (filePath : String) (reader : R) :
    Proc FS (Option GoError) := do
  RWLock_Lock
  withDefer RWLock_Unlock do
    let err ← callDelegate (env.gulu_File_WriteFileSaferByReader filePath reader 0o644)
    atClassify
    if isDenied env.caseRanges err then
      LogFatalf env ("write file [" ++ filePath ++ "] failed: " ++ fmtErr err)
    pure err

end Wrappers

/-! ## The nine operations, uniformly -/

/-- A call of one of the exported functions, with its arguments. -/
inductive Call (R : Type) where
  | Move (src dest : String)
  | Copy (src dest : String)
  | CopyNewtimes (src dest : String)
  | Rename (p newP : String)
  | Remove (p : String)
  | ReadFile (filePath : String)
  | WriteFileWithoutChangeTime (filePath : String) (data : List UInt8)
  | WriteFile (filePath : String) (data : List UInt8)
  | WriteFileByReader (filePath : String) (reader : R)

/-- What a call hands back: the byte slice (for `ReadFile` only) and the error. -/
structure Ret where
  data : Option (List UInt8)
  err : Option GoError
  deriving DecidableEq, Repr

/-- Only an error is handed back. -/
def Ret.ofErr (e : Option GoError) : Ret := { data := none, err := e }

/-- A byte slice and an error are handed back. -/
def Ret.ofRead (r : List UInt8 × Option GoError) : Ret := { data := some r.1, err := r.2 }

/-- Maps the value a computation returns. -/
def Proc.map {FS α β : Type} (f : α → β) (m : Proc FS α) : Proc FS β := fun w =>
  match m w with
  | Outcome.returned a w1 => Outcome.returned (f a) w1
  | Outcome.exited c w1 => Outcome.exited c w1
  | Outcome.crashed w1 => Outcome.crashed w1
  | Outcome.blocked => Outcome.blocked

/-- Runs the exported function the call names. -/
def Call.run {FS R : Type} (env : Env FS R) : Call R → Proc FS Ret
  | .Move src dest => Proc.map Ret.ofErr (FileLock.Move env src dest)
  | .Copy src dest => Proc.map Ret.ofErr (FileLock.Copy env src dest)
  | .CopyNewtimes src dest => Proc.map Ret.ofErr (FileLock.CopyNewtimes env src dest)
  | .Rename p newP => Proc.map Ret.ofErr (FileLock.Rename env p newP)
  | .Remove p => Proc.map Ret.ofErr (FileLock.Remove env p)
  | .ReadFile filePath => Proc.map Ret.ofRead (FileLock.ReadFile env filePath)
  | .WriteFileWithoutChangeTime filePath data =>
      Proc.map Ret.ofErr (FileLock.WriteFileWithoutChangeTime env filePath data)
  | .WriteFile filePath data => Proc.map Ret.ofErr (FileLock.WriteFile env filePath data)
  | .WriteFileByReader filePath reader =>
      Proc.map Ret.ofErr (FileLock.WriteFileByReader env filePath reader)

/-- The delegate a call addresses, with the arguments the wrapper passes on. -/
def Call.delegate {FS R : Type} (env : Env FS R) : Call R → FS → Ret × FS
  | .Move src dest => fun fs =>
      (Ret.ofErr (env.os_Rename src dest fs).1, (env.os_Rename src dest fs).2)
  | .Copy src dest => fun fs =>
      (Ret.ofErr (env.gulu_File_Copy src dest fs).1, (env.gulu_File_Copy src dest fs).2)
  | .CopyNewtimes src dest => fun fs =>
      (Ret.ofErr (env.gulu_File_CopyNewtimes src dest fs).1,
        (env.gulu_File_CopyNewtimes src dest fs).2)
  | .Rename p newP => fun fs => (Ret.ofErr (env.os_Rename p newP fs).1, (env.os_Rename p newP fs).2)
  | .Remove p => fun fs => (Ret.ofErr (env.os_RemoveAll p fs).1, (env.os_RemoveAll p fs).2)
  | .ReadFile filePath => fun fs =>
      (Ret.ofRead (env.os_ReadFile filePath fs).1, (env.os_ReadFile filePath fs).2)
  | .WriteFileWithoutChangeTime filePath data => fun fs =>
      (Ret.ofErr (env.gulu_File_WriteFileSaferWithoutChangeTime filePath data 0o644 fs).1,
        (env.gulu_File_WriteFileSaferWithoutChangeTime filePath data 0o644 fs).2)
  | .WriteFile filePath data => fun fs =>
      (Ret.ofErr (env.gulu_File_WriteFileSafer filePath data 0o644 fs).1,
        (env.gulu_File_WriteFileSafer filePath data 0o644 fs).2)
  | .WriteFileByReader filePath reader => fun fs =>
      (Ret.ofErr (env.gulu_File_WriteFileSaferByReader filePath reader 0o644 fs).1,
        (env.gulu_File_WriteFileSaferByReader filePath reader 0o644 fs).2)

/-- Whether the call is a `Move` whose source and destination are the same string. -/
def Call.isSelfMove {R : Type} : Call R → Bool
  | .Move src dest => decide (src = dest)
  | _ => false

/-- The message the wrapper formats for the fatal logger, given the error of its delegate. -/
def Call.fatalMessage {R : Type} : Call R → Option GoError → String
  | .Move src dest, err => "move [src=" ++ src ++ ", dest=" ++ dest ++ "] failed: " ++ fmtErr err
  | .Copy src dest, err => "copy [src=" ++ src ++ ", dest=" ++ dest ++ "] failed: " ++ fmtErr err
  | .CopyNewtimes src dest, err =>
      "copy [src=" ++ src ++ ", dest=" ++ dest ++ "] failed: " ++ fmtErr err
  | .Rename p newP, err => "rename [p=" ++ p ++ ", newP=" ++ newP ++ "] failed: " ++ fmtErr err
  | .Remove p, err => "remove file [" ++ p ++ "] failed: " ++ fmtErr err
  | .ReadFile filePath, err => "read file [" ++ filePath ++ "] failed: " ++ fmtErr err
  | .WriteFileWithoutChangeTime filePath _, err =>
      "write file [" ++ filePath ++ "] failed: " ++ fmtErr err
  | .WriteFile filePath _, err => "write file [" ++ filePath ++ "] failed: " ++ fmtErr err
  | .WriteFileByReader filePath _, err => "write file [" ++ filePath ++ "] failed: " ++ fmtErr err

/-- The exported name of the function a call addresses. -/
def Call.name {R : Type} : Call R → String
  | .Move _ _ => "Move"
  | .Copy _ _ => "Copy"
  | .CopyNewtimes _ _ => "CopyNewtimes"
  | .Rename _ _ => "Rename"
  | .Remove _ => "Remove"
  | .ReadFile _ => "ReadFile"
  | .WriteFileWithoutChangeTime _ _ => "WriteFileWithoutChangeTime"
  | .WriteFile _ _ => "WriteFile"
  | .WriteFileByReader _ _ => "WriteFileByReader"

/-- The path arguments of a call. -/
def Call.paths {R : Type} : Call R → List String
  | .Move src dest => [src, dest]
  | .Copy src dest => [src, dest]
  | .CopyNewtimes src dest => [src, dest]
  | .Rename p newP => [p, newP]
  | .Remove p => [p]
  | .ReadFile filePath => [filePath]
  | .WriteFileWithoutChangeTime filePath _ => [filePath]
  | .WriteFile filePath _ => [filePath]
  | .WriteFileByReader filePath _ => [filePath]

/-- The world a wrapper leaves behind when it takes the free gate, the
delegate answers `r` leaving the file system `fs1`, and the wrapper returns:
written out step by step, as a reference for the theorems. -/
def afterCall {FS : Type} (w : World FS) (fs1 : FS) (fatal : Option FatalCall) : World FS :=
  { fs := fs1
    gate := false
    fatals := w.fatals ++ fatal.toList
    history := w.history ++
      ([{ kind := StepKind.lock, gateHeld := true },
        { kind := StepKind.delegate, gateHeld := true },
        { kind := StepKind.classify, gateHeld := true }] ++
       (fatal.toList.map fun _ => { kind := StepKind.fatal, gateHeld := true }) ++
       [{ kind := StepKind.unlock, gateHeld := false }]) }

/-- The world at the moment the fatal logger terminates the process: the gate is
still held, the deferred `Unlock` has not run. -/
def atExit {FS : Type} (w : World FS) (fs1 : FS) (fatal : FatalCall) : World FS :=
  { fs := fs1
    gate := true
    fatals := w.fatals ++ [fatal]
    history := w.history ++
      [{ kind := StepKind.lock, gateHeld := true },
       { kind := StepKind.delegate, gateHeld := true },
       { kind := StepKind.classify, gateHeld := true },
       { kind := StepKind.fatal, gateHeld := true }] }

/-- The call of the fatal logger a wrapper makes on the error `err`. -/
def Call.fatalCall {FS R : Type} (env : Env FS R) (c : Call R) (err : Option GoError) :
    FatalCall :=
  { exitCode := env.ExitCodeFileSysErr, message := c.fatalMessage err }

/-! ## Vocabulary of the statements -/

/-- The two phrases `isDenied` searches for. -/
def deniedPhrases : List String := ["access is denied", "used by another process"]

/-- Whether `c` is the rune `p` or, for a lower-case ASCII letter `p`, its capital. -/
def sameLetter (c p : Char) : Bool :=
  c == p || (decide (97 ≤ p.toNat) && decide (p.toNat ≤ 122) && decide (c.toNat + 32 = p.toNat))

/-- Whether `m` spells `phrase` rune by rune in some mix of upper and lower case. -/
def isCaseMixOf : List Char → List Char → Bool
  | [], [] => true
  | c :: cs, p :: ps => sameLetter c p && isCaseMixOf cs ps
  | _, _ => false

/-- An ASCII rune that is not a capital letter. -/
def isLowerAscii (p : Char) : Bool :=
  decide (p.toNat ≤ 127) && !(decide (65 ≤ p.toNat) && decide (p.toNat ≤ 90))

/-- The world an outcome ends in, if the call got anywhere. -/
def Outcome.world {FS α : Type} : Outcome FS α → Option (World FS)
  | .returned _ w => some w
  | .exited _ w => some w
  | .crashed w => some w
  | .blocked => none

/-! ## A small environment for examples -/

/-- An environment without file system state in which every delegate answers
`answer` (and `os.ReadFile` hands back `bytes` with it).  The runes of the
examples are ASCII, so the case table is never consulted. -/
def answeringEnv (answer : Option GoError) (bytes : List UInt8) (fatalReturns : Bool) :
    Env Unit Unit :=
  { caseRanges := fun r => r
    ExitCodeFileSysErr := 26
    fatalReturns := fatalReturns
    os_Rename := fun _ _ fs => (answer, fs)
    gulu_File_Copy := fun _ _ fs => (answer, fs)
    gulu_File_CopyNewtimes := fun _ _ fs => (answer, fs)
    os_RemoveAll := fun _ fs => (answer, fs)
    os_ReadFile := fun _ fs => ((bytes, answer), fs)
    gulu_File_WriteFileSaferWithoutChangeTime := fun _ _ _ fs => (answer, fs)
    gulu_File_WriteFileSafer := fun _ _ _ fs => (answer, fs)
    gulu_File_WriteFileSaferByReader := fun _ _ _ fs => (answer, fs) }

/-- The process at start: gate free, nothing logged, no step taken. -/
def startWorld {FS : Type} (fs : FS) : World FS :=
  { fs := fs, gate := false, fatals := [], history := [] }

/-- The not-found errors as the native calls produce them: the errno `ENOENT`,
with the text the platform gives it, inside a `PathError` (one path) or a
`LinkError` (two paths) that names the operation. -/
inductive NotFoundError : GoError → Prop where
  | path (op path text : String) : NotFoundError (PathError op path (syscall_ENOENT text))
  | link (op old new text : String) : NotFoundError (LinkError op old new (syscall_ENOENT text))

/-- The words with which a wrapper names its operation in the fatal message. -/
def Call.verb {R : Type} : Call R → String
  | .Move _ _ => "move"
  | .Copy _ _ => "copy"
  | .CopyNewtimes _ _ => "copy"
  | .Rename _ _ => "rename"
  | .Remove _ => "remove file"
  | .ReadFile _ => "read file"
  | .WriteFileWithoutChangeTime _ _ => "write file"
  | .WriteFile _ _ => "write file"
  | .WriteFileByReader _ _ => "write file"

/-! ## The delegates, modelled from the spec -/

/-- Modelled from the spec: a file as the delegates leave it (the native calls
of `os` and the safe-write helper of `gulu` are not under src/): its bytes,
its permission bits and its modification time. -/
structure FileEntry where
  content : List UInt8
  perm : Nat
  modTime : Nat

/-- Modelled from the spec: the file system behind the delegates: the files
by path, a clock, and for every path the error with which the platform
refuses to create or replace the file there (directory missing, no
permission, file held by another process), if it does. -/
structure SpecFS where
  files : String → Option FileEntry
  clock : Nat
  refusal : String → Option GoError

/-- Modelled from the spec: the file system with `entry` put at `p`, the clock advanced. -/
def SpecFS.put (fs : SpecFS) (p : String) (entry : FileEntry) : SpecFS :=
  { fs with files := fun q => if q = p then some entry else fs.files q, clock := fs.clock + 1 }

/-- Modelled from the spec: whether the permission bits let the owner read (bit `0400`). -/
def ownerMayRead (perm : Nat) : Bool := perm / 0o400 % 2 == 1

/-- Modelled from the spec: the package value `os.ErrNotExist`. -/
def os_ErrNotExist : GoError :=
  { node := { text := "file does not exist", isPermission := false, isNotExist := true },
    unwrapped := [] }

/-- Modelled from the spec: the safe write of the helper, "write to temporary
location, then rename into place", as one atomic step: where the platform
refuses, the error is answered and nothing changes; otherwise the file at `p`
has exactly the bytes `data` and the permission bits `perm`, and its
modification time is the present one, or with `keepTime` the one the file had. -/
def SpecFS.safeWrite (keepTime : Bool) (p : String) (data : List UInt8) (perm : Nat)
    (fs : SpecFS) : Option GoError × SpecFS :=
  match fs.refusal p with
  | some e => (some e, fs)
  | none =>
    let time :=
      match keepTime, fs.files p with
      | true, some old => old.modTime
      | _, _ => fs.clock
    (none, fs.put p { content := data, perm := perm, modTime := time })

/-- Modelled from the spec: `os.ReadFile`, "read entire file into memory": the
bytes of the file at `p`; a not-found error where there is none, a permission
error where the owner may not read it.  The file system is left as it is. -/
def SpecFS.readAll (p : String) (fs : SpecFS) : (List UInt8 × Option GoError) × SpecFS :=
  match fs.files p with
  | none => (([], some (PathError "open" p (syscall_ENOENT "no such file or directory"))), fs)
  | some f =>
    if ownerMayRead f.perm then
      ((f.content, none), fs)
    else
      (([], some (PathError "open" p (syscall_EACCES "permission denied"))), fs)

/-- Modelled from the spec: `os.Rename`, "atomic rename". -/
def SpecFS.rename (old new : String) (fs : SpecFS) : Option GoError × SpecFS :=
  match fs.files old, fs.refusal new with
  | none, _ =>
    (some (LinkError "rename" old new (syscall_ENOENT "no such file or directory")), fs)
  | some _, some e => (some e, fs)
  | some f, none =>
    (none, { fs with files := fun q => if q = new then some f else if q = old then none
                                        else fs.files q })

/-- Modelled from the spec: the copy of the helper, "byte-for-byte copy"; with
`newTimes` the copy gets the present time, otherwise that of the source. -/
def SpecFS.copy (newTimes : Bool) (src dest : String) (fs : SpecFS) : Option GoError × SpecFS :=
  match fs.files src, fs.refusal dest with
  | none, _ => (some os_ErrNotExist, fs)
  | some _, some e => (some e, fs)
  | some f, none =>
    (none, fs.put dest { f with modTime := if newTimes then fs.clock else f.modTime })

/-- Modelled from the spec: `os.RemoveAll`, "recursive removal of file or
directory tree", which does not fail when the path does not exist: `p` goes,
and every path below `p`. -/
def SpecFS.removeAll (p : String) (fs : SpecFS) : Option GoError × SpecFS :=
  (none, { fs with files := fun q =>
    if q = p ∨ matchesAt q.data (p ++ "/").data = true then none else fs.files q })

/-- Modelled from the spec: the delegates on the modelled file system; a reader
is the list of the bytes it yields. -/
def specEnv (caseRanges : Char → Char) (exitCode : Nat) (fatalReturns : Bool) :
    Env SpecFS (List UInt8) :=
  { caseRanges := caseRanges
    ExitCodeFileSysErr := exitCode
    fatalReturns := fatalReturns
    os_Rename := SpecFS.rename
    gulu_File_Copy := SpecFS.copy false
    gulu_File_CopyNewtimes := SpecFS.copy true
    os_RemoveAll := SpecFS.removeAll
    os_ReadFile := SpecFS.readAll
    gulu_File_WriteFileSaferWithoutChangeTime := SpecFS.safeWrite true
    gulu_File_WriteFileSafer := SpecFS.safeWrite false
    gulu_File_WriteFileSaferByReader := SpecFS.safeWrite false }

/-- A file system without files on which nothing is refused. -/
def SpecFS.empty : SpecFS :=
  { files := fun _ => none, clock := 0, refusal := fun _ => none }

/-! ## Many threads: the wrappers interleaved -/

/-- An environment without file system state whose every delegate answers the
error `err`; the wrappers are run in it to read off the steps they take. -/
def Env.answering {R : Type} (caseRanges : Char → Char) (fatalReturns : Bool)
    (err : Option GoError) : Env Unit R :=
  { caseRanges := caseRanges
    ExitCodeFileSysErr := 0
    fatalReturns := fatalReturns
    os_Rename := fun _ _ fs => (err, fs)
    gulu_File_Copy := fun _ _ fs => (err, fs)
    gulu_File_CopyNewtimes := fun _ _ fs => (err, fs)
    os_RemoveAll := fun _ fs => (err, fs)
    os_ReadFile := fun _ fs => (([], err), fs)
    gulu_File_WriteFileSaferWithoutChangeTime := fun _ _ _ fs => (err, fs)
    gulu_File_WriteFileSafer := fun _ _ _ fs => (err, fs)
    gulu_File_WriteFileSaferByReader := fun _ _ _ fs => (err, fs) }

/-- The steps the wrapper of call `c` takes when its delegate answers `err`,
read off the wrapper itself: the kinds of the steps `Call.run` records when it
is run with the gate free. -/
def Call.script {R : Type} (caseRanges : Char → Char) (fatalReturns : Bool) (c : Call R)
    (err : Option GoError) : List StepKind :=
  match (c.run (Env.answering caseRanges fatalReturns err) (startWorld ())).world with
  | some w => w.history.map Step.kind
  | none => []

/-- A thread inside a wrapper: the call, the error its delegate has answered
(`nil` as long as the delegate has not come back), the number of steps of the
wrapper it has taken, and whether its delegate is executing. -/
structure Running (R : Type) where
  call : Call R
  err : Option GoError
  pos : Nat
  inDelegate : Bool

/-- The step of its wrapper the thread takes next, if the wrapper has one left. -/
def Running.next {R : Type} (caseRanges : Char → Char) (fatalReturns : Bool) (run : Running R) :
    Option StepKind :=
  (Call.script caseRanges fatalReturns run.call run.err)[run.pos]?

/-- The thread after one more step of its wrapper. -/
def Running.advance {R : Type} (run : Running R) : Running R :=
  { run with pos := run.pos + 1, inDelegate := false }

/-- Whether, `pos` steps into `script`, `Lock` has been passed and `Unlock` has not. -/
def holdsAt (script : List StepKind) (pos : Nat) : Bool :=
  (script.take pos).contains StepKind.lock && !(script.take pos).contains StepKind.unlock

/-- Whether the thread is between `Lock` and `Unlock` of its wrapper. -/
def holdsGate {R : Type} (caseRanges : Char → Char) (fatalReturns : Bool) :
    Option (Running R) → Bool
  | none => false
  | some run => holdsAt (Call.script caseRanges fatalReturns run.call run.err) run.pos

/-- Whether the delegate of the thread is executing. -/
def delegateRuns {R : Type} : Option (Running R) → Bool
  | none => false
  | some run => run.inDelegate

/-- What the delegates do, as seen from outside: thread `t` enters its
delegate, changes the file system from inside it, comes back from it. -/
inductive FsEvent where
  | start (t : Nat)
  | effect (t : Nat)
  | finish (t : Nat)
  deriving DecidableEq, Repr

/-- The process with its threads: the file system, `RWLock`, whether the
process has been terminated, every thread (`none` when it is outside the
package), the calls made to the fatal logger, the record of the delegate
events, and the steps taken, each with its thread. -/
structure Sys (FS R : Type) where
  fs : FS
  gate : Bool
  exited : Bool
  threads : Nat → Option (Running R)
  fatals : List FatalCall
  log : List FsEvent
  history : List (Nat × Step)

/-- The process at start: gate free, every thread outside the package. -/
def Sys.init {FS R : Type} (fs : FS) : Sys FS R :=
  { fs := fs, gate := false, exited := false, threads := fun _ => none, fatals := [],
    log := [], history := [] }

/-- Thread `t` becomes `th`. -/
def Sys.goto {FS R : Type} (s : Sys FS R) (t : Nat) (th : Option (Running R)) : Sys FS R :=
  { s with threads := fun u => if u = t then th else s.threads u }

/-- Appends a step of thread `t` to the history, with the gate as it is now. -/
def Sys.note {FS R : Type} (s : Sys FS R) (t : Nat) (k : StepKind) : Sys FS R :=
  { s with history := s.history ++ [(t, { kind := k, gateHeld := s.gate })] }

/-- One step of one thread `t` of a live process.  A thread outside the
package may call any wrapper; inside, it takes the steps of that wrapper
(`Call.script`) in their order, one at a time, any other thread moving in
between.  The steps act as in the sequential semantics: `lock` can be taken
only while the gate is free and takes it (`RWLock_Lock`); `unlock` frees it
and aborts the process when it is not held (`RWLock_Unlock`); the delegate
changes the file system in any number of steps and answers any error; the
fatal logger records its call and ends the process unless it comes back
(`logging_LogFatalf`).  A thread whose wrapper has no step left returns. -/
inductive Sys.Step {FS R : Type} (caseRanges : Char → Char) (exitCode : Nat)
    (fatalReturns : Bool) : Sys FS R → Sys FS R → Prop where
  | call (s : Sys FS R) (t : Nat) (c : Call R) :
      s.exited = false → s.threads t = none →
      Sys.Step caseRanges exitCode fatalReturns s
        (s.goto t (some { call := c, err := none, pos := 0, inDelegate := false }))
  | ret (s : Sys FS R) (t : Nat) (run : Running R) :
      s.exited = false → s.threads t = some run →
      run.next caseRanges fatalReturns = none →
      Sys.Step caseRanges exitCode fatalReturns s (s.goto t none)
  | lock (s : Sys FS R) (t : Nat) (run : Running R) :
      s.exited = false → s.threads t = some run →
      run.next caseRanges fatalReturns = some StepKind.lock → s.gate = false →
      Sys.Step caseRanges exitCode fatalReturns s
        ((Sys.note { s with gate := true } t StepKind.lock).goto t (some run.advance))
  | delegateStart (s : Sys FS R) (t : Nat) (run : Running R) :
      s.exited = false → s.threads t = some run →
      run.next caseRanges fatalReturns = some StepKind.delegate → run.inDelegate = false →
      Sys.Step caseRanges exitCode fatalReturns s
        (Sys.goto { s with log := s.log ++ [FsEvent.start t] } t
          (some { run with inDelegate := true }))
  | delegateEffect (s : Sys FS R) (t : Nat) (run : Running R) (fs1 : FS) :
      s.exited = false → s.threads t = some run →
      run.next caseRanges fatalReturns = some StepKind.delegate → run.inDelegate = true →
      Sys.Step caseRanges exitCode fatalReturns s
        { s with fs := fs1, log := s.log ++ [FsEvent.effect t] }
  | delegateReturn (s : Sys FS R) (t : Nat) (run : Running R) (err : Option GoError) :
      s.exited = false → s.threads t = some run →
      run.next caseRanges fatalReturns = some StepKind.delegate → run.inDelegate = true →
      Sys.Step caseRanges exitCode fatalReturns s
        ((Sys.note { s with log := s.log ++ [FsEvent.finish t] } t StepKind.delegate).goto t
          (some { run with err := err }.advance))
  | classify (s : Sys FS R) (t : Nat) (run : Running R) :
      s.exited = false → s.threads t = some run →
      run.next caseRanges fatalReturns = some StepKind.classify →
      Sys.Step caseRanges exitCode fatalReturns s
        ((s.note t StepKind.classify).goto t (some run.advance))
  | fatalExit (s : Sys FS R) (t : Nat) (run : Running R) :
      s.exited = false → s.threads t = some run →
      run.next caseRanges fatalReturns = some StepKind.fatal → fatalReturns = false →
      Sys.Step caseRanges exitCode fatalReturns s
        (Sys.note
          { s with
            exited := true
            fatals := s.fatals ++
              [{ exitCode := exitCode, message := run.call.fatalMessage run.err }] }
          t StepKind.fatal)
  | fatalReturn (s : Sys FS R) (t : Nat) (run : Running R) :
      s.exited = false → s.threads t = some run →
      run.next caseRanges fatalReturns = some StepKind.fatal → fatalReturns = true →
      Sys.Step caseRanges exitCode fatalReturns s
        ((Sys.note
          { s with
            fatals := s.fatals ++
              [{ exitCode := exitCode, message := run.call.fatalMessage run.err }] }
          t StepKind.fatal).goto t (some run.advance))
  | unlock (s : Sys FS R) (t : Nat) (run : Running R) :
      s.exited = false → s.threads t = some run →
      run.next caseRanges fatalReturns = some StepKind.unlock → s.gate = true →
      Sys.Step caseRanges exitCode fatalReturns s
        ((Sys.note { s with gate := false } t StepKind.unlock).goto t (some run.advance))
  | unlockFree (s : Sys FS R) (t : Nat) (run : Running R) :
      s.exited = false → s.threads t = some run →
      run.next caseRanges fatalReturns = some StepKind.unlock → s.gate = false →
      Sys.Step caseRanges exitCode fatalReturns s { s with exited := true }

/-- The states some interleaving reaches from the start. -/
inductive Sys.Reachable {FS R : Type} (caseRanges : Char → Char) (exitCode : Nat)
    (fatalReturns : Bool) : Sys FS R → Prop where
  | start (fs : FS) : Sys.Reachable caseRanges exitCode fatalReturns (Sys.init fs)
  | step (s s1 : Sys FS R) :
      Sys.Reachable caseRanges exitCode fatalReturns s →
      Sys.Step caseRanges exitCode fatalReturns s s1 →
      Sys.Reachable caseRanges exitCode fatalReturns s1

/-- Reading a record of delegate events with the thread whose delegate is
executing in hand: a `start` is accepted only when no delegate is executing, an
`effect` or `finish` only from the thread whose delegate is. -/
def serialStep : Option Nat → FsEvent → Option (Option Nat)
  | none, .start t => some (some t)
  | some u, .effect t => if u = t then some (some u) else none
  | some u, .finish t => if u = t then some none else none
  | _, _ => none

/-- Reads a whole record from `owner` on; `none` when two delegate executions overlap in it. -/
def serialFrom (owner : Option Nat) : List FsEvent → Option (Option Nat)
  | [] => some owner
  | e :: es =>
    match serialStep owner e with
    | none => none
    | some owner1 => serialFrom owner1 es

/-- Reads a whole record from the start: the thread whose delegate is executing
at its end, if the delegate executions in it follow one another. -/
def serialOwner (log : List FsEvent) : Option (Option Nat) := serialFrom none log

/-- What holds of the process at every moment, `owner` being the thread inside
the gate: the gate is held exactly when there is such a thread, no other
thread is between `Lock` and `Unlock`, a thread whose delegate is executing
stands at the delegate step of its wrapper, a thread whose wrapper has no step
left is not between `Lock` and `Unlock`, and the record of delegate events
reads serially, ending inside a delegate exactly when the owner is in its
delegate. -/
def Sys.Inv {FS R : Type} (caseRanges : Char → Char) (fatalReturns : Bool) (s : Sys FS R)
    (owner : Option Nat) : Prop :=
  s.gate = owner.isSome ∧
  (∀ t, holdsGate caseRanges fatalReturns (s.threads t) = true ↔ owner = some t) ∧
  (∀ t run, s.threads t = some run → run.inDelegate = true →
    run.next caseRanges fatalReturns = some StepKind.delegate) ∧
  (∀ t run, s.threads t = some run → run.next caseRanges fatalReturns = none →
    holdsGate caseRanges fatalReturns (some run) = false) ∧
  serialOwner s.log = some (owner.filter fun t => delegateRuns (s.threads t))

/-- The steps after the classification: the fatal log on a denial, and the
deferred `Unlock` unless the fatal logger has ended the process. -/
def closingSteps (caseRanges : Char → Char) (fatalReturns : Bool) (err : Option GoError) :
    List StepKind :=
  if isDenied caseRanges err then
    StepKind.fatal :: (if fatalReturns then [StepKind.unlock] else [])
  else
    [StepKind.unlock]

/-- An interleaving of two threads, written out: thread 0 calls
`WriteFile("a.txt", [1])`, thread 1 calls `WriteFile("b.txt", [2])`, thread 0
takes the gate and enters its delegate; thread 1 waits in front of `Lock`. -/
def twoWriters : Sys Unit Unit :=
  let s0 : Sys Unit Unit := Sys.init ()
  let s1 := s0.goto 0
    (some { call := Call.WriteFile "a.txt" [1], err := none, pos := 0, inDelegate := false })
  let s2 := s1.goto 1
    (some { call := Call.WriteFile "b.txt" [2], err := none, pos := 0, inDelegate := false })
  let s3 := (Sys.note { s2 with gate := true } 0 StepKind.lock).goto 0
    (some { call := Call.WriteFile "a.txt" [1], err := none, pos := 1, inDelegate := false })
  Sys.goto { s3 with log := s3.log ++ [FsEvent.start 0] } 0
    (some { call := Call.WriteFile "a.txt" [1], err := none, pos := 1, inDelegate := true })

/-! ## Strings -/

/-- `matchesAt` holds exactly when `sub` starts `s`. -/
theorem matchesAt_iff (s sub : List Char) :
    matchesAt s sub = true ↔ ∃ post, s = sub ++ post := by
  induction s generalizing sub with
  | nil =>
    cases sub with
    | nil => simp [matchesAt]
    | cons p ps => simp [matchesAt]
  | cons c cs ih =>
    cases sub with
    | nil => simp [matchesAt]
    | cons p ps =>
      simp only [matchesAt, Bool.and_eq_true, beq_iff_eq, ih, List.cons_append, List.cons.injEq]
      constructor
      · rintro ⟨h, post, hp⟩
        exact ⟨post, h, hp⟩
      · rintro ⟨post, h, hp⟩
        exact ⟨h, post, hp⟩

/-- `containsChars` holds exactly when `sub` occurs in `s`, with text before and after. -/
theorem containsChars_iff (s sub : List Char) :
    containsChars s sub = true ↔ ∃ pre post, s = pre ++ sub ++ post := by
  induction s with
  | nil =>
    simp only [containsChars, matchesAt_iff]
    constructor
    · rintro ⟨post, h⟩
      exact ⟨[], post, by simpa using h⟩
    · rintro ⟨pre, post, h⟩
      have h1 : sub = [] := by
        cases sub with
        | nil => rfl
        | cons p ps => cases pre <;> simp at h
      exact ⟨[], by simp [h1]⟩
  | cons c cs ih =>
    simp only [containsChars, Bool.or_eq_true, matchesAt_iff, ih]
    constructor
    · rintro (⟨post, h⟩ | ⟨pre, post, h⟩)
      · exact ⟨[], post, by simpa using h⟩
      · exact ⟨c :: pre, post, by simp [h]⟩
    · rintro ⟨pre, post, h⟩
      cases pre with
      | nil => exact Or.inl ⟨post, by simpa using h⟩
      | cons d pre =>
        simp only [List.cons_append, List.cons.injEq] at h
        exact Or.inr ⟨pre, post, h.2⟩

/-- Lowering a rune that is a case variant of a lower-case ASCII rune gives that rune. -/
theorem unicode_ToLower_of_sameLetter (tbl : Char → Char) (c p : Char)
    (hp : isLowerAscii p = true) (h : sameLetter c p = true) :
    unicode_ToLower tbl c = p := by
  simp only [isLowerAscii, Bool.and_eq_true, decide_eq_true_eq, Bool.not_eq_true',
    Bool.and_eq_false_imp, decide_eq_false_iff_not] at hp
  simp only [sameLetter, Bool.or_eq_true, beq_iff_eq, Bool.and_eq_true, decide_eq_true_eq] at h
  rcases h with h | ⟨⟨h1, h2⟩, h3⟩
  · subst h
    have h2 : ¬ (65 ≤ c.toNat ∧ c.toNat ≤ 90) := fun h => by have := hp.2 h.1; omega
    simp [unicode_ToLower, hp.1, h2]
  · have h4 : c.toNat ≤ 127 := by omega
    have h5 : 65 ≤ c.toNat ∧ c.toNat ≤ 90 := by omega
    simp only [unicode_ToLower, h4, h5, and_self, if_true, h3]
    exact Char.ofNat_toNat p

/-- Lowering a case mix of a lower-case ASCII phrase gives the phrase. -/
theorem map_ToLower_of_isCaseMixOf (tbl : Char → Char) (m phrase : List Char)
    (hp : phrase.all isLowerAscii = true) (h : isCaseMixOf m phrase = true) :
    m.map (unicode_ToLower tbl) = phrase := by
  induction m generalizing phrase with
  | nil =>
    cases phrase with
    | nil => rfl
    | cons p ps => simp [isCaseMixOf] at h
  | cons c cs ih =>
    cases phrase with
    | nil => simp [isCaseMixOf] at h
    | cons p ps =>
      simp only [isCaseMixOf, Bool.and_eq_true] at h
      simp only [List.all_cons, Bool.and_eq_true] at hp
      simp only [List.map_cons, List.cons.injEq]
      exact ⟨unicode_ToLower_of_sameLetter tbl c p hp.1 h.1, ih ps hp.2 h.2⟩

/-- The classifier, unfolded for a non-nil error. -/
theorem isDenied_some (tbl : Char → Char) (e : GoError) :
    isDenied tbl (some e) =
      (errors_Is e Sentinel.ErrPermission ||
        (strings_Contains (strings_ToLower tbl e.Error) "access is denied" ||
          strings_Contains (strings_ToLower tbl e.Error) "used by another process")) := by
  simp only [isDenied]
  split <;> simp_all

/-! ## One description for all nine wrappers -/

/-- Every wrapper, entered with the gate free and not short-circuited, takes the
gate, calls its delegate once, classifies the error, calls the fatal logger if
and only if the error is a denial, and frees the gate if it gets to return. -/
theorem Call.run_eq {FS R : Type} (env : Env FS R) (c : Call R) (w : World FS)
    (hgate : w.gate = false) (hmove : c.isSelfMove = false) :
    c.run env w =
      if isDenied env.caseRanges (c.delegate env w.fs).1.err then
        if env.fatalReturns then
          Outcome.returned (c.delegate env w.fs).1
            (afterCall w (c.delegate env w.fs).2
              (some (c.fatalCall env (c.delegate env w.fs).1.err)))
        else
          Outcome.exited env.ExitCodeFileSysErr
            (atExit w (c.delegate env w.fs).2 (c.fatalCall env (c.delegate env w.fs).1.err))
      else
        Outcome.returned (c.delegate env w.fs).1 (afterCall w (c.delegate env w.fs).2 none) := by
  cases w with
  | mk fs gate fatals history =>
    simp only at hgate
    subst hgate
    cases hret : env.fatalReturns <;> cases c <;>
      simp [Call.run, Call.delegate, Call.isSelfMove] at hmove ⊢ <;>
      split <;>
      simp_all [FileLock.Move, FileLock.Copy, FileLock.CopyNewtimes, FileLock.Rename,
        FileLock.Remove, FileLock.ReadFile, FileLock.WriteFileWithoutChangeTime,
        FileLock.WriteFile, FileLock.WriteFileByReader, Proc.map, withDefer, bind, Proc.bind, pure, Proc.pure,
        RWLock_Lock, RWLock_Unlock, callDelegate, atClassify, LogFatalf, logging_LogFatalf,
        World.note, afterCall, atExit, Call.fatalCall, Call.fatalMessage, Ret.ofErr, Ret.ofRead]

/-! ## The classifier: sufficient and necessary conditions -/

/-- Claim C3: a non-nil error is classified as a denial whenever (a) it is or
wraps the permission-denied condition, whatever its text, or (b) its lowercased
text contains one of the two phrases; in particular whenever its text contains
one of the phrases spelled in any mix of upper and lower case, whatever text
stands before and after it. -/
theorem isDenied_of_permission_or_phrase (tbl : Char → Char) (e : GoError)
    (h : errors_Is e Sentinel.ErrPermission = true ∨
      (∃ phrase ∈ deniedPhrases,
        strings_Contains (strings_ToLower tbl e.Error) phrase = true) ∨
      (∃ phrase ∈ deniedPhrases, ∃ pre m post : String,
        isCaseMixOf m.data phrase.data = true ∧ e.Error = pre ++ m ++ post)) :
    isDenied tbl (some e) = true := by
  rw [isDenied_some]
  have key : ∀ phrase ∈ deniedPhrases,
      strings_Contains (strings_ToLower tbl e.Error) phrase = true →
      (strings_Contains (strings_ToLower tbl e.Error) "access is denied" ||
        strings_Contains (strings_ToLower tbl e.Error) "used by another process") = true := by
    intro phrase hmem hc
    simp only [deniedPhrases, List.mem_cons, List.mem_singleton, List.not_mem_nil,
      or_false] at hmem
    rcases hmem with rfl | rfl <;> simp [hc]
  rcases h with h | ⟨phrase, hmem, hc⟩ | ⟨phrase, hmem, pre, m, post, hmix, htext⟩
  · simp [h]
  · simp [key phrase hmem hc]
  · have hlow : phrase.data.all isLowerAscii = true := by
      simp only [deniedPhrases, List.mem_cons, List.mem_singleton, List.not_mem_nil,
        or_false] at hmem
      rcases hmem with rfl | rfl <;> decide
    have hc : strings_Contains (strings_ToLower tbl e.Error) phrase = true := by
      simp only [strings_Contains, strings_ToLower, htext, String.data_append, List.map_append,
        map_ToLower_of_isCaseMixOf tbl m.data phrase.data hlow hmix]
      exact (containsChars_iff _ _).2 ⟨_, _, rfl⟩
    simp [key phrase hmem hc]

/-- Claim C3 at the error with text `write file: Access Is Denied.` and an
arbitrary table: the third alternative of the hypothesis holds there. -/
theorem isDenied_of_permission_or_phrase_witness :
    isDenied (fun r => r) (some (errors_New "write file: Access Is Denied.")) = true :=
  isDenied_of_permission_or_phrase (fun r => r) (errors_New "write file: Access Is Denied.")
    (Or.inr (Or.inr ⟨"access is denied", by decide, "write file: ", "Access Is Denied", ".",
      by decide, by decide⟩))

/-- Claim C4: `isDenied(nil)` is false; a non-nil error that neither is nor
wraps the permission-denied condition and whose lowercased text contains
neither phrase is not a denial; and a non-nil error is a denial exactly when
it matches (a) or (b). -/
theorem isDenied_only_permission_or_phrase (tbl : Char → Char) (e : GoError)
    (hperm : errors_Is e Sentinel.ErrPermission = false)
    (h1 : strings_Contains (strings_ToLower tbl e.Error) "access is denied" = false)
    (h2 : strings_Contains (strings_ToLower tbl e.Error) "used by another process" = false) :
    isDenied tbl none = false ∧
    isDenied tbl (some e) = false ∧
    (∀ e1 : GoError, isDenied tbl (some e1) = true ↔
      (errors_Is e1 Sentinel.ErrPermission = true ∨
        strings_Contains (strings_ToLower tbl e1.Error) "access is denied" = true ∨
        strings_Contains (strings_ToLower tbl e1.Error) "used by another process" = true)) := by
  refine ⟨rfl, ?_, ?_⟩
  · rw [isDenied_some, hperm, h1, h2]
    rfl
  · intro e1
    rw [isDenied_some]
    simp only [Bool.or_eq_true]

/-- Claim C4 at the error with text `file not found`. -/
theorem isDenied_only_permission_or_phrase_witness :
    isDenied (fun r => r) none = false ∧
    isDenied (fun r => r) (some (errors_New "file not found")) = false :=
  have h := isDenied_only_permission_or_phrase (fun r => r) (errors_New "file not found")
    (by decide) (by decide) (by decide)
  ⟨h.1, h.2.1⟩

/-- A `Move` whose source and destination are the same string returns `nil`
at once, in every state. -/
theorem Call.run_selfMove {FS R : Type} (env : Env FS R) (c : Call R) (w : World FS)
    (hmove : c.isSelfMove = true) :
    c.run env w = Outcome.returned (Ret.ofErr none) w := by
  cases c <;> simp [Call.isSelfMove] at hmove
  subst hmove
  simp [Call.run, FileLock.Move, Proc.map, pure, Proc.pure]

/-- A call that is not short-circuited waits for ever when the gate is held. -/
theorem Call.run_blocked {FS R : Type} (env : Env FS R) (c : Call R) (w : World FS)
    (hgate : w.gate = true) (hmove : c.isSelfMove = false) :
    c.run env w = Outcome.blocked := by
  cases c <;>
    simp [Call.isSelfMove] at hmove <;>
    simp_all [Call.run, FileLock.Move, FileLock.Copy, FileLock.CopyNewtimes, FileLock.Rename,
      FileLock.Remove, FileLock.ReadFile, FileLock.WriteFileWithoutChangeTime,
      FileLock.WriteFile, FileLock.WriteFileByReader, Proc.map, withDefer, bind, Proc.bind,
      RWLock_Lock]

/-! ## The contract of the wrappers -/

/-- Claim C1: when the result of the delegate is not classified as a denial
(`nil` included), each of the nine wrappers (`Move` with `src != dest`)
returns exactly what its delegate returned: the same error, and for `ReadFile`
the same byte slice too; nothing is logged and the gate is free again. -/
theorem not_denied_returned_unchanged {FS R : Type} (env : Env FS R) (c : Call R)
    (w : World FS) (hgate : w.gate = false) (hmove : c.isSelfMove = false)
    (hnd : isDenied env.caseRanges (c.delegate env w.fs).1.err = false) :
    c.run env w =
      Outcome.returned (c.delegate env w.fs).1 (afterCall w (c.delegate env w.fs).2 none) := by
  rw [Call.run_eq env c w hgate hmove, hnd]
  rfl

/-- Claim C1 at `ReadFile("a.txt")` when `os.ReadFile` answers the bytes
`[104, 105]` together with the error `file not found`. -/
theorem not_denied_returned_unchanged_witness :
    (Call.ReadFile "a.txt").run
        (answeringEnv (some (errors_New "file not found")) [104, 105] false) (startWorld ()) =
      Outcome.returned
        { data := some [104, 105], err := some (errors_New "file not found") }
        (afterCall (startWorld ()) () none) :=
  not_denied_returned_unchanged
    (answeringEnv (some (errors_New "file not found")) [104, 105] false)
    (Call.ReadFile "a.txt") (startWorld ()) rfl rfl (by decide)

/-- Claim C2: for each of the nine wrappers and every result of the delegate,
the calls made to the fatal logger during the call are: exactly one, with the
exit code `logging.ExitCodeFileSysErr`, when `isDenied` holds of the error, and
none otherwise; and when the error is not a denial the call simply returns. -/
theorem fatal_logger_iff_denied {FS R : Type} (env : Env FS R) (c : Call R)
    (w : World FS) (hgate : w.gate = false) (hmove : c.isSelfMove = false) :
    ∃ w1, (c.run env w).world = some w1 ∧
      w1.fatals = w.fatals ++
        (if isDenied env.caseRanges (c.delegate env w.fs).1.err then
          [{ exitCode := env.ExitCodeFileSysErr,
             message := c.fatalMessage (c.delegate env w.fs).1.err }]
        else []) ∧
      (isDenied env.caseRanges (c.delegate env w.fs).1.err = false →
        c.run env w = Outcome.returned (c.delegate env w.fs).1 w1) := by
  rw [Call.run_eq env c w hgate hmove]
  cases hd : isDenied env.caseRanges (c.delegate env w.fs).1.err
  · exact ⟨_, rfl, by simp [afterCall], fun _ => rfl⟩
  · cases hr : env.fatalReturns
    · exact ⟨_, rfl, by simp [atExit, Call.fatalCall], fun h => by simp at h⟩
    · exact ⟨_, rfl, by simp [afterCall, Call.fatalCall], fun h => by simp at h⟩

/-- Claim C2 at `Remove("a")` when `os.RemoveAll` answers `Access is denied.`
and the fatal logger terminates the process: one call, exit code 26. -/
theorem fatal_logger_iff_denied_witness :
    ∃ w1, ((Call.Remove "a").run
        (answeringEnv (some (errors_New "Access is denied.")) [] false)
        (startWorld ())).world = some w1 ∧
      w1.fatals = [{ exitCode := 26, message := "remove file [a] failed: Access is denied." }] := by
  obtain ⟨w1, h1, h2, _⟩ := fatal_logger_iff_denied
    (answeringEnv (some (errors_New "Access is denied.")) ([] : List UInt8) false)
    (Call.Remove "a") (startWorld ()) rfl rfl
  exact ⟨w1, h1, h2⟩

/-- Claim C6: `Move(p, p)` returns a nil error in every state, whether the
gate is free or held, and leaves the whole state as it was: the file system is
not touched (no delegate call), nothing is passed to the fatal logger, the gate
is neither taken nor freed. -/
theorem Move_same_path_noop {FS R : Type} (env : Env FS R) (p : String) (w : World FS) :
    Move env p p w = Outcome.returned none w := by
  simp [Move, pure, Proc.pure]

/-- Claim C7: a wrapper entered with the gate free returns for every outcome
of its delegate (when the error is a denial: provided the fatal logger comes
back), and it returns with the gate free; the steps it took are `Lock`, the
delegate call, the classification, the fatal log if the error is a denial, and
`Unlock`, in this order, the gate being held at every step but the last. -/
theorem gate_held_then_released {FS R : Type} (env : Env FS R) (c : Call R)
    (w : World FS) (hgate : w.gate = false)
    (hret : isDenied env.caseRanges (c.delegate env w.fs).1.err = true →
      env.fatalReturns = true) :
    ∃ r w1, c.run env w = Outcome.returned r w1 ∧ w1.gate = false ∧
      w1.history = w.history ++
        (if c.isSelfMove then []
         else
          [{ kind := StepKind.lock, gateHeld := true },
           { kind := StepKind.delegate, gateHeld := true },
           { kind := StepKind.classify, gateHeld := true }] ++
          (if isDenied env.caseRanges (c.delegate env w.fs).1.err then
            [{ kind := StepKind.fatal, gateHeld := true }]
           else []) ++
          [{ kind := StepKind.unlock, gateHeld := false }]) := by
  cases hmove : c.isSelfMove
  · rw [Call.run_eq env c w hgate hmove]
    cases hd : isDenied env.caseRanges (c.delegate env w.fs).1.err
    · exact ⟨_, _, rfl, rfl, by simp [afterCall]⟩
    · rw [hret hd]
      exact ⟨_, _, rfl, rfl, by simp [afterCall]⟩
  · rw [Call.run_selfMove env c w hmove]
    exact ⟨_, _, rfl, hgate, by simp⟩

/-- Claim C7 at `WriteFile("a", [1])` when the delegate answers with a
permission error and the fatal logger comes back. -/
theorem gate_held_then_released_witness :
    ∃ r w1, (Call.WriteFile "a" [1]).run
        (answeringEnv (some (syscall_EACCES "permission denied")) [] true) (startWorld ()) =
          Outcome.returned r w1 ∧ w1.gate = false ∧
      w1.history =
        [{ kind := StepKind.lock, gateHeld := true },
         { kind := StepKind.delegate, gateHeld := true },
         { kind := StepKind.classify, gateHeld := true },
         { kind := StepKind.fatal, gateHeld := true },
         { kind := StepKind.unlock, gateHeld := false }] := by
  obtain ⟨r, w1, h1, h2, h3⟩ := gate_held_then_released
    (answeringEnv (some (syscall_EACCES "permission denied")) ([] : List UInt8) true)
    (Call.WriteFile "a" [1]) (startWorld ()) rfl (fun _ => rfl)
  exact ⟨r, w1, h1, h2, h3⟩

/-! ## Not-found errors -/

/-- A native not-found error wraps the not-exist condition and not the
permission-denied one. -/
theorem NotFoundError.sentinels {e : GoError} (h : NotFoundError e) :
    errors_Is e Sentinel.ErrNotExist = true ∧ errors_Is e Sentinel.ErrPermission = false := by
  cases h <;> exact ⟨rfl, rfl⟩

/-- Claim C5 fails where the path spells a denial phrase: `os.ReadFile` on the
missing file `access is denied.txt` answers a not-found error whose text embeds
the path; `isDenied` holds of it, and `ReadFile` calls the fatal logger, which
ends the process with the gate held, instead of returning the error. -/
theorem notFound_path_with_phrase_is_denied :
    NotFoundError (PathError "open" "access is denied.txt"
      (syscall_ENOENT "no such file or directory")) ∧
    isDenied (fun r => r) (some (PathError "open" "access is denied.txt"
      (syscall_ENOENT "no such file or directory"))) = true ∧
    (Call.ReadFile "access is denied.txt").run
        (answeringEnv (some (PathError "open" "access is denied.txt"
          (syscall_ENOENT "no such file or directory"))) [] false) (startWorld ()) =
      Outcome.exited 26 (atExit (startWorld ()) ()
        { exitCode := 26
          message := "read file [access is denied.txt] failed: " ++
            "open access is denied.txt: no such file or directory" }) := by
  refine ⟨NotFoundError.path _ _ _, by decide, ?_⟩
  rw [Call.run_eq (answeringEnv (some (PathError "open" "access is denied.txt"
    (syscall_ENOENT "no such file or directory"))) [] false)
    (Call.ReadFile "access is denied.txt") (startWorld ()) rfl rfl]
  rfl

/-- Claim C5, amended: when the delegate of any of the nine wrappers fails
with a native not-found error whose lowercased text (which embeds the paths)
contains neither phrase, the error is not classified as a denial and the
wrapper returns it to the caller, the fatal logger not being called. -/
theorem notFound_returned_when_text_clean {FS R : Type} (env : Env FS R) (c : Call R)
    (w : World FS) (e : GoError) (hgate : w.gate = false) (hmove : c.isSelfMove = false)
    (he : (c.delegate env w.fs).1.err = some e) (hnf : NotFoundError e)
    (h1 : strings_Contains (strings_ToLower env.caseRanges e.Error) "access is denied" = false)
    (h2 : strings_Contains (strings_ToLower env.caseRanges e.Error)
      "used by another process" = false) :
    isDenied env.caseRanges (some e) = false ∧
    ∃ w1, c.run env w = Outcome.returned (c.delegate env w.fs).1 w1 ∧
      (c.delegate env w.fs).1.err = some e ∧ w1.fatals = w.fatals ∧ w1.gate = false := by
  have hd : isDenied env.caseRanges (some e) = false := by
    rw [isDenied_some, hnf.sentinels.2, h1, h2]
    rfl
  refine ⟨hd, afterCall w (c.delegate env w.fs).2 none, ?_, he, ?_, rfl⟩
  · rw [Call.run_eq env c w hgate hmove, he, hd]
    rfl
  · simp [afterCall]

/-- Claim C5, amended, at `Rename("a", "b")` with `a` missing. -/
theorem notFound_returned_when_text_clean_witness :
    isDenied (fun r => r) (some (LinkError "rename" "a" "b"
      (syscall_ENOENT "no such file or directory"))) = false ∧
    ∃ w1, (Call.Rename "a" "b").run
        (answeringEnv (some (LinkError "rename" "a" "b"
          (syscall_ENOENT "no such file or directory"))) [] false) (startWorld ()) =
        Outcome.returned (Ret.ofErr (some (LinkError "rename" "a" "b"
          (syscall_ENOENT "no such file or directory")))) w1 ∧
      w1.fatals = [] ∧ w1.gate = false := by
  obtain ⟨h0, w1, h1, _, h3, h4⟩ := notFound_returned_when_text_clean
    (answeringEnv (some (LinkError "rename" "a" "b"
      (syscall_ENOENT "no such file or directory"))) ([] : List UInt8) false)
    (Call.Rename "a" "b") (startWorld ())
    (LinkError "rename" "a" "b" (syscall_ENOENT "no such file or directory"))
    rfl rfl rfl (NotFoundError.link _ _ _ _) (by decide) (by decide)
  exact ⟨h0, w1, h1, h3, h4⟩

/-! ## The message handed to the fatal logger -/

/-- Every string contains itself. -/
theorem strings_Contains_self (s : String) : strings_Contains s s = true :=
  (containsChars_iff _ _).2 ⟨[], [], by simp⟩

/-- What occurs in `a` occurs in `a ++ b`. -/
theorem strings_Contains_append_left (a b sub : String) (h : strings_Contains a sub = true) :
    strings_Contains (a ++ b) sub = true := by
  obtain ⟨pre, post, hp⟩ := (containsChars_iff _ _).1 h
  exact (containsChars_iff _ _).2 ⟨pre, post ++ b.data, by simp [String.data_append, hp]⟩

/-- What occurs in `b` occurs in `a ++ b`. -/
theorem strings_Contains_append_right (a b sub : String) (h : strings_Contains b sub = true) :
    strings_Contains (a ++ b) sub = true := by
  obtain ⟨pre, post, hp⟩ := (containsChars_iff _ _).1 h
  exact (containsChars_iff _ _).2 ⟨a.data ++ pre, post, by simp [String.data_append, hp]⟩

/-- Claim C10 fails for `CopyNewtimes`: on a denial its message to the fatal
logger starts with `copy`, as that of `Copy` does, and does not contain the
name `CopyNewtimes`, in whatever case it is looked for. -/
theorem CopyNewtimes_message_lacks_name :
    (Call.CopyNewtimes "a" "b").run
        (answeringEnv (some (errors_New "Access is denied.")) [] false) (startWorld ()) =
      Outcome.exited 26 (atExit (startWorld ()) ()
        { exitCode := 26, message := "copy [src=a, dest=b] failed: Access is denied." }) ∧
    strings_Contains "copy [src=a, dest=b] failed: Access is denied."
      (Call.CopyNewtimes "a" "b" : Call Unit).name = false ∧
    strings_Contains (strings_ToLower (fun r => r) "copy [src=a, dest=b] failed: Access is denied.")
      (strings_ToLower (fun r => r) (Call.CopyNewtimes "a" "b" : Call Unit).name) = false := by
  refine ⟨?_, by decide, by decide⟩
  rw [Call.run_eq (answeringEnv (some (errors_New "Access is denied.")) [] false)
    (Call.CopyNewtimes "a" "b") (startWorld ()) rfl rfl]
  rfl

/-- Claim C10, amended: whenever the error of the delegate is classified as a
denial, the one message the wrapper passes to the fatal logger contains the
words naming the kind of operation in lower case (`move`, `copy` for `Copy` and
`CopyNewtimes` alike, `rename`, `remove file`, `read file`, `write file` for the
three write functions), every path argument of the call in full, and the text
of the error. -/
theorem fatal_message_names_kind_paths_error {FS R : Type} (env : Env FS R) (c : Call R)
    (w : World FS) (hgate : w.gate = false) (hmove : c.isSelfMove = false)
    (hd : isDenied env.caseRanges (c.delegate env w.fs).1.err = true) :
    ∃ w1 e msg, (c.run env w).world = some w1 ∧
      (c.delegate env w.fs).1.err = some e ∧
      w1.fatals = w.fatals ++ [{ exitCode := env.ExitCodeFileSysErr, message := msg }] ∧
      msg = c.fatalMessage (some e) ∧
      strings_Contains msg c.verb = true ∧
      (∀ p ∈ c.paths, strings_Contains msg p = true) ∧
      strings_Contains msg e.Error = true := by
  obtain ⟨e, he⟩ : ∃ e, (c.delegate env w.fs).1.err = some e := by
    cases h : (c.delegate env w.fs).1.err with
    | none => rw [h] at hd; simp [isDenied] at hd
    | some e => exact ⟨e, rfl⟩
  have hw : ∃ w1, (c.run env w).world = some w1 ∧
      w1.fatals = w.fatals ++
        [{ exitCode := env.ExitCodeFileSysErr, message := c.fatalMessage (some e) }] := by
    rw [Call.run_eq env c w hgate hmove, hd, he]
    cases env.fatalReturns
    · exact ⟨_, rfl, by simp [atExit, Call.fatalCall]⟩
    · exact ⟨_, rfl, by simp [afterCall, Call.fatalCall]⟩
  obtain ⟨w1, hw1, hw2⟩ := hw
  refine ⟨w1, e, c.fatalMessage (some e), hw1, he, hw2, rfl, ?_, ?_, ?_⟩
  · cases c <;>
      simp only [Call.fatalMessage, Call.verb] <;>
      repeat (first
        | decide
        | apply strings_Contains_append_left)
  · intro p hp
    cases c <;>
      simp only [Call.paths, List.mem_cons, List.mem_singleton, List.not_mem_nil,
        or_false] at hp <;>
      simp only [Call.fatalMessage] <;>
      rcases hp with rfl | rfl <;>
      repeat (first
        | exact strings_Contains_self _
        | exact strings_Contains_append_right _ _ _ (strings_Contains_self _)
        | apply strings_Contains_append_left)
  · cases c <;>
      simp only [Call.fatalMessage, fmtErr] <;>
      exact strings_Contains_append_right _ _ _ (strings_Contains_self _)

/-- Claim C10, amended, at `Rename("a", "b")` when `os.Rename` answers
`Access is denied.`. -/
theorem fatal_message_names_kind_paths_error_witness :
    ∃ w1 msg, ((Call.Rename "a" "b").run
        (answeringEnv (some (errors_New "Access is denied.")) [] false)
        (startWorld ())).world = some w1 ∧
      w1.fatals = [{ exitCode := 26, message := msg }] ∧
      msg = "rename [p=a, newP=b] failed: Access is denied." ∧
      strings_Contains msg "rename" = true ∧
      strings_Contains msg "a" = true ∧ strings_Contains msg "b" = true ∧
      strings_Contains msg "Access is denied." = true := by
  obtain ⟨w1, e, msg, h1, h2, h3, h4, h5, h6, h7⟩ := fatal_message_names_kind_paths_error
    (answeringEnv (some (errors_New "Access is denied.")) ([] : List UInt8) false)
    (Call.Rename "a" "b") (startWorld ()) rfl rfl (by decide)
  have he : e = errors_New "Access is denied." := (Option.some.inj h2).symm
  subst he
  exact ⟨w1, msg, h1, h3, h4, h5, h6 "a" (by simp [Call.paths]), h6 "b" (by simp [Call.paths]),
    h7⟩

/-! ## Writing, then reading -/

/-- When `WriteFile` returns, the gate was free, the value returned is the
error of the delegate, and the state left behind has the gate free and the
file system the delegate produced. -/
theorem WriteFile_returned {FS R : Type} (env : Env FS R) (p : String) (data : List UInt8)
    (w w1 : World FS) (r : Option GoError)
    (h : WriteFile env p data w = Outcome.returned r w1) :
    r = (env.gulu_File_WriteFileSafer p data 0o644 w.fs).1 ∧ w1.gate = false ∧
      w1.fs = (env.gulu_File_WriteFileSafer p data 0o644 w.fs).2 := by
  cases w with
  | mk fs gate fatals history =>
    cases gate <;> cases hret : env.fatalReturns <;>
      cases hd : isDenied env.caseRanges (env.gulu_File_WriteFileSafer p data 0o644 fs).1 <;>
      simp [WriteFile, withDefer, bind, Proc.bind, pure, Proc.pure, RWLock_Lock, RWLock_Unlock,
        callDelegate, atClassify, LogFatalf, logging_LogFatalf, World.note, hret, hd] at h <;>
      obtain ⟨h1, h2⟩ := h <;>
      subst h2 <;>
      exact ⟨h1.symm, rfl, rfl⟩

/-- With the gate free and an error that is not a denial, `ReadFile` returns
what `os.ReadFile` returned. -/
theorem ReadFile_returns {FS R : Type} (env : Env FS R) (p : String) (w : World FS)
    (hgate : w.gate = false)
    (hnd : isDenied env.caseRanges (env.os_ReadFile p w.fs).1.2 = false) :
    ReadFile env p w =
      Outcome.returned (env.os_ReadFile p w.fs).1 (afterCall w (env.os_ReadFile p w.fs).2 none) := by
  cases w with
  | mk fs gate fatals history =>
    simp only at hgate hnd
    subst hgate
    simp [ReadFile, withDefer, bind, Proc.bind, pure, Proc.pure, RWLock_Lock, RWLock_Unlock,
      callDelegate, atClassify, World.note, hnd, afterCall]

/-- Whenever the delegates are such that a safe write of `data` at `p` that
succeeded is read back by `os.ReadFile(p)`, a `WriteFile(p, data)` that returns
nil is followed by a `ReadFile(p)` that returns `data` and nil. -/
theorem ReadFile_after_WriteFile_of_contract {FS R : Type} (env : Env FS R)
    (hdelegates : ∀ (p : String) (data : List UInt8) (fs : FS),
      (env.gulu_File_WriteFileSafer p data 0o644 fs).1 = none →
      (env.os_ReadFile p (env.gulu_File_WriteFileSafer p data 0o644 fs).2).1 = (data, none))
    (p : String) (data : List UInt8) (w w1 : World FS)
    (hw : WriteFile env p data w = Outcome.returned none w1) :
    ∃ w2, ReadFile env p w1 = Outcome.returned (data, none) w2 := by
  obtain ⟨h1, h2, h3⟩ := WriteFile_returned env p data w w1 none hw
  have hr := hdelegates p data w.fs h1.symm
  rw [← h3] at hr
  have hnd : isDenied env.caseRanges (env.os_ReadFile p w1.fs).1.2 = false := by
    rw [hr]
    rfl
  exact ⟨_, by rw [ReadFile_returns env p w1 h2 hnd, hr]⟩

/-- On the modelled file system a safe write with the bits `0644` that
succeeded is read back: the file is there and its owner may read it. -/
theorem SpecFS.readAll_safeWrite (p : String) (data : List UInt8) (fs : SpecFS)
    (h : (SpecFS.safeWrite false p data 0o644 fs).1 = none) :
    (SpecFS.readAll p (SpecFS.safeWrite false p data 0o644 fs).2).1 = (data, none) := by
  unfold SpecFS.safeWrite at h ⊢
  cases hr : fs.refusal p with
  | some e => simp [hr] at h
  | none =>
    have hm : ownerMayRead 0o644 = true := by decide
    simp [SpecFS.readAll, SpecFS.put, hm]

/-- Claim C9: on the file system modelled from the spec, for every path `p`,
every byte sequence `data` and every state, if `WriteFile(p, data)` returns a
nil error then the `ReadFile(p)` issued next, from the state `WriteFile` left,
returns exactly `data` and a nil error. -/
theorem WriteFile_then_ReadFile (caseRanges : Char → Char) (exitCode : Nat)
    (fatalReturns : Bool) (p : String) (data : List UInt8) (w w1 : World SpecFS)
    (hw : WriteFile (specEnv caseRanges exitCode fatalReturns) p data w =
      Outcome.returned none w1) :
    ∃ w2, ReadFile (specEnv caseRanges exitCode fatalReturns) p w1 =
      Outcome.returned (data, none) w2 :=
  ReadFile_after_WriteFile_of_contract (specEnv caseRanges exitCode fatalReturns)
    (fun q d fs h => SpecFS.readAll_safeWrite q d fs h) p data w w1 hw

/-- Claim C9 at `p = "out.txt"` and the bytes `[1, 2, 3]`, from the empty file system. -/
theorem WriteFile_then_ReadFile_witness :
    WriteFile (specEnv (fun r => r) 26 false) "out.txt" [1, 2, 3] (startWorld SpecFS.empty) =
      Outcome.returned none (afterCall (startWorld SpecFS.empty)
        (SpecFS.empty.put "out.txt" { content := [1, 2, 3], perm := 0o644, modTime := 0 })
        none) ∧
    ∃ w2, ReadFile (specEnv (fun r => r) 26 false) "out.txt" (afterCall (startWorld SpecFS.empty)
        (SpecFS.empty.put "out.txt" { content := [1, 2, 3], perm := 0o644, modTime := 0 })
        none) = Outcome.returned ([1, 2, 3], none) w2 :=
  ⟨rfl, WriteFile_then_ReadFile (fun r => r) 26 false "out.txt" [1, 2, 3]
    (startWorld SpecFS.empty) _ rfl⟩

/-! ## Many threads: the steps of the wrappers -/

/-- In the answering environment the delegate of every call answers the given error. -/
theorem Call.delegate_answering {R : Type} (tbl : Char → Char) (fr : Bool)
    (err : Option GoError) (c : Call R) :
    (c.delegate (Env.answering tbl fr err) ()).1.err = err := by
  cases c <;> rfl

/-- The steps of every wrapper: none for a `Move` onto itself; otherwise `Lock`,
the delegate, the classification, and the closing steps. -/
theorem Call.script_eq {R : Type} (tbl : Char → Char) (fr : Bool) (c : Call R)
    (err : Option GoError) :
    Call.script tbl fr c err =
      if c.isSelfMove then []
      else StepKind.lock :: StepKind.delegate :: StepKind.classify ::
        closingSteps tbl fr err := by
  unfold Call.script
  cases hm : c.isSelfMove
  · rw [Call.run_eq (Env.answering tbl fr err) c (startWorld ()) rfl hm,
      Call.delegate_answering]
    cases hd : isDenied tbl err <;> cases fr <;>
      simp [Env.answering, closingSteps, hd, Outcome.world, afterCall, atExit, startWorld]
  · rw [Call.run_selfMove (Env.answering tbl fr err) c (startWorld ()) hm]
    simp [Outcome.world, startWorld]

/-- Whatever the environment and the state, a wrapper entered with the gate
free records the steps of its script for the error its delegate answers. -/
theorem Call.history_eq_script {FS R : Type} (env : Env FS R) (c : Call R) (w : World FS)
    (hgate : w.gate = false) :
    ∃ w1, (c.run env w).world = some w1 ∧
      w1.history.map Step.kind = w.history.map Step.kind ++
        Call.script env.caseRanges env.fatalReturns c (c.delegate env w.fs).1.err := by
  rw [Call.script_eq]
  cases hm : c.isSelfMove
  · rw [Call.run_eq env c w hgate hm]
    cases hd : isDenied env.caseRanges (c.delegate env w.fs).1.err <;>
      cases hr : env.fatalReturns <;>
      exact ⟨_, rfl, by simp [closingSteps, hd, afterCall, atExit]⟩
  · rw [Call.run_selfMove env c w hm]
    exact ⟨_, rfl, by simp⟩

/-- At its `Lock` step a wrapper does not hold the gate; after it, it does, and
has a step left. -/
theorem Call.holdsAt_lock {R : Type} (tbl : Char → Char) (fr : Bool) (c : Call R)
    (err : Option GoError) (pos : Nat)
    (h : (Call.script tbl fr c err)[pos]? = some StepKind.lock) :
    holdsAt (Call.script tbl fr c err) pos = false ∧
    holdsAt (Call.script tbl fr c err) (pos + 1) = true ∧
    (Call.script tbl fr c err)[pos + 1]? ≠ none := by
  rw [Call.script_eq] at h ⊢
  cases hm : c.isSelfMove <;> cases hd : isDenied tbl err <;> cases fr <;>
    simp [hm, hd, closingSteps] at h ⊢ <;>
    rcases pos with _ | _ | _ | _ | _ | pos <;>
    simp [holdsAt, List.take] at h ⊢

/-- At its delegate step a wrapper holds the gate; once the delegate has
answered, whatever the error, it still does, and has a step left. -/
theorem Call.holdsAt_delegate {R : Type} (tbl : Char → Char) (fr : Bool) (c : Call R)
    (err err1 : Option GoError) (pos : Nat)
    (h : (Call.script tbl fr c err)[pos]? = some StepKind.delegate) :
    holdsAt (Call.script tbl fr c err) pos = true ∧
    holdsAt (Call.script tbl fr c err1) (pos + 1) = true ∧
    (Call.script tbl fr c err1)[pos + 1]? ≠ none := by
  rw [Call.script_eq] at h ⊢
  rw [Call.script_eq]
  cases hm : c.isSelfMove <;> cases hd : isDenied tbl err <;>
    cases hd1 : isDenied tbl err1 <;> cases fr <;>
    simp [hm, hd, hd1, closingSteps] at h ⊢ <;>
    rcases pos with _ | _ | _ | _ | _ | pos <;>
    simp [holdsAt, List.take] at h ⊢

/-- At its classification a wrapper holds the gate, and after it, and has a step left. -/
theorem Call.holdsAt_classify {R : Type} (tbl : Char → Char) (fr : Bool) (c : Call R)
    (err : Option GoError) (pos : Nat)
    (h : (Call.script tbl fr c err)[pos]? = some StepKind.classify) :
    holdsAt (Call.script tbl fr c err) pos = true ∧
    holdsAt (Call.script tbl fr c err) (pos + 1) = true ∧
    (Call.script tbl fr c err)[pos + 1]? ≠ none := by
  rw [Call.script_eq] at h ⊢
  cases hm : c.isSelfMove <;> cases hd : isDenied tbl err <;> cases fr <;>
    simp [hm, hd, closingSteps] at h ⊢ <;>
    rcases pos with _ | _ | _ | _ | _ | pos <;>
    simp [holdsAt, List.take] at h ⊢

/-- At its fatal log a wrapper holds the gate; when the logger comes back it
still does, and has a step left. -/
theorem Call.holdsAt_fatal {R : Type} (tbl : Char → Char) (fr : Bool) (c : Call R)
    (err : Option GoError) (pos : Nat)
    (h : (Call.script tbl fr c err)[pos]? = some StepKind.fatal) :
    holdsAt (Call.script tbl fr c err) pos = true ∧
    (fr = true → holdsAt (Call.script tbl fr c err) (pos + 1) = true ∧
      (Call.script tbl fr c err)[pos + 1]? ≠ none) := by
  rw [Call.script_eq] at h ⊢
  cases hm : c.isSelfMove <;> cases hd : isDenied tbl err <;> cases fr <;>
    simp [hm, hd, closingSteps] at h ⊢ <;>
    rcases pos with _ | _ | _ | _ | _ | pos <;>
    simp [holdsAt, List.take] at h ⊢

/-- At its `Unlock` step a wrapper holds the gate; after it, it does not. -/
theorem Call.holdsAt_unlock {R : Type} (tbl : Char → Char) (fr : Bool) (c : Call R)
    (err : Option GoError) (pos : Nat)
    (h : (Call.script tbl fr c err)[pos]? = some StepKind.unlock) :
    holdsAt (Call.script tbl fr c err) pos = true ∧
    holdsAt (Call.script tbl fr c err) (pos + 1) = false := by
  rw [Call.script_eq] at h ⊢
  cases hm : c.isSelfMove <;> cases hd : isDenied tbl err <;> cases fr <;>
    simp [hm, hd, closingSteps] at h ⊢ <;>
    rcases pos with _ | _ | _ | _ | _ | pos <;>
    simp [holdsAt, List.take] at h ⊢

/-- Before its first step no wrapper holds the gate. -/
theorem holdsAt_zero (script : List StepKind) : holdsAt script 0 = false := by
  simp [holdsAt]

/-! ## Many threads: the delegates never overlap -/

/-- Reading a record with one more event at its end. -/
theorem serialFrom_append (owner : Option Nat) (log : List FsEvent) (e : FsEvent) :
    serialFrom owner (log ++ [e]) = (serialFrom owner log).bind fun o => serialStep o e := by
  induction log generalizing owner with
  | nil =>
    simp only [List.nil_append, serialFrom, Option.some_bind]
    cases serialStep owner e <;> rfl
  | cons x xs ih =>
    simp only [List.cons_append, serialFrom]
    cases serialStep owner x with
    | none => rfl
    | some o1 => exact ih o1

/-- The invariant holds at the start. -/
theorem Sys.inv_init {FS R : Type} (tbl : Char → Char) (fr : Bool) (fs : FS) :
    (Sys.init fs : Sys FS R).Inv tbl fr none := by
  refine ⟨rfl, ?_, ?_, ?_, rfl⟩
  · intro t
    simp [Sys.init, holdsGate]
  · intro t run h
    simp [Sys.init] at h
  · intro t run h
    simp [Sys.init] at h

/-- Replacing a thread by one that agrees with it on holding the gate and on
being inside its delegate keeps the invariant. -/
theorem Sys.inv_goto {FS R : Type} (tbl : Char → Char) (fr : Bool) (s s1 : Sys FS R)
    (owner : Option Nat) (t : Nat) (th : Option (Running R))
    (hinv : s.Inv tbl fr owner) (hgate : s1.gate = s.gate) (hlog : s1.log = s.log)
    (hthreads : s1.threads = fun u => if u = t then th else s.threads u)
    (h1 : holdsGate tbl fr th = holdsGate tbl fr (s.threads t))
    (h2 : delegateRuns th = delegateRuns (s.threads t))
    (h3 : ∀ run, th = some run → run.inDelegate = true →
      run.next tbl fr = some StepKind.delegate)
    (h4 : ∀ run, th = some run → run.next tbl fr = none →
      holdsGate tbl fr (some run) = false) :
    s1.Inv tbl fr owner := by
  obtain ⟨hg, hh, hc, hd, hl⟩ := hinv
  refine ⟨by rw [hgate, hg], ?_, ?_, ?_, ?_⟩
  · intro u
    rw [hthreads, ← hh u]
    by_cases hu : u = t
    · subst hu
      simp [h1]
    · simp [hu]
  · intro u run hrun
    rw [hthreads] at hrun
    by_cases hu : u = t
    · simp only [hu, if_true] at hrun
      exact h3 run hrun
    · simp only [hu, if_false] at hrun
      exact hc u run hrun
  · intro u run hrun
    rw [hthreads] at hrun
    by_cases hu : u = t
    · simp only [hu, if_true] at hrun
      exact h4 run hrun
    · simp only [hu, if_false] at hrun
      exact hd u run hrun
  · rw [hlog, hl]
    congr 1
    cases owner with
    | none => rfl
    | some v =>
      simp only [Option.filter, hthreads]
      by_cases hv : v = t
      · subst hv
        simp [h2]
      · simp [hv]

/-- Replacing a thread, the owner and the record keeps the invariant when the
new thread and the new owner agree, the other threads are owners as before,
and the record reads serially up to the new owner. -/
theorem Sys.inv_update {FS R : Type} (tbl : Char → Char) (fr : Bool) (s s1 : Sys FS R)
    (owner owner1 : Option Nat) (t : Nat) (th : Option (Running R))
    (hinv : s.Inv tbl fr owner) (hgate : s1.gate = owner1.isSome)
    (hthreads : s1.threads = fun u => if u = t then th else s.threads u)
    (h1 : holdsGate tbl fr th = true ↔ owner1 = some t)
    (h2 : ∀ u, u ≠ t → (owner = some u ↔ owner1 = some u))
    (h3 : ∀ run, th = some run → run.inDelegate = true →
      run.next tbl fr = some StepKind.delegate)
    (h4 : ∀ run, th = some run → run.next tbl fr = none →
      holdsGate tbl fr (some run) = false)
    (h5 : serialOwner s1.log = some (owner1.filter fun v => delegateRuns (s1.threads v))) :
    s1.Inv tbl fr owner1 := by
  obtain ⟨_, hh, hc, hd, _⟩ := hinv
  refine ⟨hgate, ?_, ?_, ?_, h5⟩
  · intro u
    rw [hthreads]
    by_cases hu : u = t
    · subst hu
      simpa using h1
    · simp only [hu, if_false]
      rw [hh u]
      exact h2 u hu
  · intro u run hrun
    rw [hthreads] at hrun
    by_cases hu : u = t
    · simp only [hu, if_true] at hrun
      exact h3 run hrun
    · simp only [hu, if_false] at hrun
      exact hc u run hrun
  · intro u run hrun
    rw [hthreads] at hrun
    by_cases hu : u = t
    · simp only [hu, if_true] at hrun
      exact h4 run hrun
    · simp only [hu, if_false] at hrun
      exact hd u run hrun

/-- Every step keeps the invariant, for a suitable owner. -/
theorem Sys.inv_step {FS R : Type} (tbl : Char → Char) (code : Nat) (fr : Bool)
    (s s1 : Sys FS R) (owner : Option Nat) (hinv : s.Inv tbl fr owner)
    (hstep : Sys.Step tbl code fr s s1) :
    ∃ owner1, s1.Inv tbl fr owner1 := by
  have hinv0 := hinv
  obtain ⟨hg, hh, hc, hd, hl⟩ := hinv
  cases hstep with
  | call t c hx ht =>
    refine ⟨owner, Sys.inv_goto tbl fr s _ owner t _ hinv0 rfl rfl rfl ?_ ?_ ?_ ?_⟩
    · rw [ht]
      simp [holdsGate, holdsAt_zero]
    · rw [ht]
      rfl
    · intro run hrun hin
      cases hrun
      simp at hin
    · intro run hrun _
      cases hrun
      simp [holdsGate, holdsAt_zero]
  | ret t run hx ht hnext =>
    refine ⟨owner, Sys.inv_goto tbl fr s _ owner t none hinv0 rfl rfl rfl ?_ ?_ ?_ ?_⟩
    · rw [ht, hd t run ht hnext]
      rfl
    · rw [ht]
      cases hin : run.inDelegate
      · simp [delegateRuns, hin]
      · rw [hc t run ht hin] at hnext
        simp at hnext
    · intro r hr
      cases hr
    · intro r hr
      cases hr
  | lock t run hx ht hnext hgate =>
    have ho : owner = none := by
      cases owner with
      | none => rfl
      | some v => rw [hgate] at hg; simp at hg
    subst ho
    obtain ⟨_, f2, f3⟩ := Call.holdsAt_lock tbl fr run.call run.err run.pos hnext
    refine ⟨some t, Sys.inv_update tbl fr s _ none (some t) t (some run.advance) hinv0 rfl rfl
      ?_ ?_ ?_ ?_ ?_⟩
    · simpa [holdsGate, Running.advance] using f2
    · intro u hu
      have hne : ¬ t = u := fun h => hu h.symm
      simp [hne]
    · intro r hr hin
      cases hr
      simp [Running.advance] at hin
    · intro r hr hn
      cases hr
      exact absurd hn f3
    · simp only [Sys.goto, Sys.note, hl]
      simp [Option.filter, delegateRuns, Running.advance]
  | delegateStart t run hx ht hnext hin =>
    obtain ⟨f1, _, _⟩ := Call.holdsAt_delegate tbl fr run.call run.err run.err run.pos hnext
    have ho : owner = some t := (hh t).1 (by rw [ht]; exact f1)
    subst ho
    refine ⟨some t, Sys.inv_update tbl fr s _ (some t) (some t) t
      (some { run with inDelegate := true }) hinv0 hg rfl ?_ ?_ ?_ ?_ ?_⟩
    · simpa [holdsGate] using f1
    · intro u _
      rfl
    · intro r hr _
      cases hr
      exact hnext
    · intro r hr hn
      cases hr
      rw [show Running.next tbl fr { run with inDelegate := true } = run.next tbl fr from rfl,
        hnext] at hn
      simp at hn
    · have hl1 : serialOwner s.log = some none := by
        rw [hl]
        simp [Option.filter, ht, delegateRuns, hin]
      simp only [serialOwner] at hl1 ⊢
      simp only [Sys.goto, serialFrom_append, hl1]
      simp [Option.filter, delegateRuns, serialStep]
  | delegateEffect t run fs1 hx ht hnext hin =>
    obtain ⟨f1, _, _⟩ := Call.holdsAt_delegate tbl fr run.call run.err run.err run.pos hnext
    have ho : owner = some t := (hh t).1 (by rw [ht]; exact f1)
    subst ho
    refine ⟨some t, hg, hh, hc, hd, ?_⟩
    have hl1 : serialOwner s.log = some (some t) := by
      rw [hl]
      simp [Option.filter, ht, delegateRuns, hin]
    simp only [serialOwner] at hl1 ⊢
    simp only [serialFrom_append, hl1]
    simp [Option.filter, ht, delegateRuns, hin, serialStep]
  | delegateReturn t run err hx ht hnext hin =>
    obtain ⟨f1, f2, f3⟩ := Call.holdsAt_delegate tbl fr run.call run.err err run.pos hnext
    have ho : owner = some t := (hh t).1 (by rw [ht]; exact f1)
    subst ho
    refine ⟨some t, Sys.inv_update tbl fr s _ (some t) (some t) t
      (some (Running.advance { run with err := err })) hinv0 hg rfl ?_ ?_ ?_ ?_ ?_⟩
    · simpa [holdsGate, Running.advance] using f2
    · intro u _
      rfl
    · intro r hr hin1
      cases hr
      simp [Running.advance] at hin1
    · intro r hr hn
      cases hr
      exact absurd hn f3
    · have hl1 : serialOwner s.log = some (some t) := by
        rw [hl]
        simp [Option.filter, ht, delegateRuns, hin]
      simp only [serialOwner] at hl1 ⊢
      simp only [Sys.goto, Sys.note, serialFrom_append, hl1]
      simp [Option.filter, delegateRuns, serialStep, Running.advance]
  | classify t run hx ht hnext =>
    obtain ⟨f1, f2, f3⟩ := Call.holdsAt_classify tbl fr run.call run.err run.pos hnext
    refine ⟨owner, Sys.inv_goto tbl fr s _ owner t (some run.advance) hinv0 rfl rfl rfl
      ?_ ?_ ?_ ?_⟩
    · rw [ht]
      simp only [holdsGate, Running.advance]
      rw [f1, f2]
    · rw [ht]
      cases hin : run.inDelegate
      · simp [delegateRuns, Running.advance, hin]
      · rw [hc t run ht hin] at hnext
        simp at hnext
    · intro r hr hin
      cases hr
      simp [Running.advance] at hin
    · intro r hr hn
      cases hr
      exact absurd hn f3
  | fatalExit t run hx ht hnext hfr => exact ⟨owner, hg, hh, hc, hd, hl⟩
  | fatalReturn t run hx ht hnext hfr =>
    obtain ⟨f1, f2⟩ := Call.holdsAt_fatal tbl fr run.call run.err run.pos hnext
    obtain ⟨f3, f4⟩ := f2 hfr
    refine ⟨owner, Sys.inv_goto tbl fr s _ owner t (some run.advance) hinv0 rfl rfl rfl
      ?_ ?_ ?_ ?_⟩
    · rw [ht]
      simp only [holdsGate, Running.advance]
      rw [f1, f3]
    · rw [ht]
      cases hin : run.inDelegate
      · simp [delegateRuns, Running.advance, hin]
      · rw [hc t run ht hin] at hnext
        simp at hnext
    · intro r hr hin
      cases hr
      simp [Running.advance] at hin
    · intro r hr hn
      cases hr
      exact absurd hn f4
  | unlock t run hx ht hnext hgate =>
    obtain ⟨f1, f2⟩ := Call.holdsAt_unlock tbl fr run.call run.err run.pos hnext
    have ho : owner = some t := (hh t).1 (by rw [ht]; exact f1)
    subst ho
    have hin : run.inDelegate = false := by
      cases hin : run.inDelegate
      · rfl
      · rw [hc t run ht hin] at hnext
        simp at hnext
    refine ⟨none, Sys.inv_update tbl fr s _ (some t) none t (some run.advance) hinv0 rfl rfl
      ?_ ?_ ?_ ?_ ?_⟩
    · simp only [holdsGate, Running.advance]
      rw [f2]
      simp
    · intro u hu
      have hne : ¬ t = u := fun h => hu h.symm
      simp [hne]
    · intro r hr hin1
      cases hr
      simp [Running.advance] at hin1
    · intro r hr _
      cases hr
      simpa [holdsGate, Running.advance] using f2
    · simp only [Sys.goto, Sys.note, hl]
      simp [Option.filter, ht, delegateRuns, hin]
  | unlockFree t run hx ht hnext hgate => exact ⟨owner, hg, hh, hc, hd, hl⟩

/-- Every reachable state satisfies the invariant for some owner. -/
theorem Sys.inv_reachable {FS R : Type} (tbl : Char → Char) (code : Nat) (fr : Bool)
    (s : Sys FS R) (h : Sys.Reachable tbl code fr s) : ∃ owner, s.Inv tbl fr owner := by
  induction h with
  | start fs => exact ⟨none, Sys.inv_init tbl fr fs⟩
  | step s s1 _ hstep ih =>
    obtain ⟨owner, hinv⟩ := ih
    exact Sys.inv_step tbl code fr s s1 owner hinv hstep

/-- Claim C8: in every state that an interleaving of calls of the wrappers by
any number of threads reaches, at most one thread is between the `Lock` and
the `Unlock` of its wrapper, and the gate is held while one is; hence at most
one delegate is executing; and in the record of the delegate events every
execution has come to its end before the next one starts, all the changes of
the file system in between being made by the executing delegate: the record
reads serially. -/
theorem delegates_never_overlap {FS R : Type} (tbl : Char → Char) (code : Nat) (fr : Bool)
    (s : Sys FS R) (h : Sys.Reachable tbl code fr s) :
    (∀ t1 t2, holdsGate tbl fr (s.threads t1) = true →
      holdsGate tbl fr (s.threads t2) = true → t1 = t2) ∧
    (∀ t, holdsGate tbl fr (s.threads t) = true → s.gate = true) ∧
    (∀ t, delegateRuns (s.threads t) = true → holdsGate tbl fr (s.threads t) = true) ∧
    (∀ t1 t2, delegateRuns (s.threads t1) = true → delegateRuns (s.threads t2) = true →
      t1 = t2) ∧
    (∃ owner, serialOwner s.log = some owner) := by
  obtain ⟨owner, hg, hh, hc, _, hl⟩ := Sys.inv_reachable tbl code fr s h
  have hx : ∀ t1 t2, holdsGate tbl fr (s.threads t1) = true →
      holdsGate tbl fr (s.threads t2) = true → t1 = t2 := by
    intro t1 t2 h1 h2
    have e1 := (hh t1).1 h1
    have e2 := (hh t2).1 h2
    rw [e1] at e2
    exact Option.some.inj e2
  have hy : ∀ t, delegateRuns (s.threads t) = true →
      holdsGate tbl fr (s.threads t) = true := by
    intro t ht
    cases hth : s.threads t with
    | none => rw [hth] at ht; simp [delegateRuns] at ht
    | some run =>
      rw [hth] at ht
      exact (Call.holdsAt_delegate tbl fr run.call run.err run.err run.pos
        (hc t run hth ht)).1
  refine ⟨hx, ?_, hy, fun t1 t2 h1 h2 => hx t1 t2 (hy t1 h1) (hy t2 h2), _, hl⟩
  intro t ht
  rw [hg, (hh t).1 ht]
  rfl

/-- Claim C8 at the interleaving `twoWriters` of two concurrent `WriteFile` calls. -/
theorem delegates_never_overlap_witness :
    (∀ t1 t2, holdsGate (fun r => r) false (twoWriters.threads t1) = true →
      holdsGate (fun r => r) false (twoWriters.threads t2) = true → t1 = t2) ∧
    (∀ t, holdsGate (fun r => r) false (twoWriters.threads t) = true →
      twoWriters.gate = true) ∧
    (∀ t, delegateRuns (twoWriters.threads t) = true →
      holdsGate (fun r => r) false (twoWriters.threads t) = true) ∧
    (∀ t1 t2, delegateRuns (twoWriters.threads t1) = true →
      delegateRuns (twoWriters.threads t2) = true → t1 = t2) ∧
    (∃ owner, serialOwner twoWriters.log = some owner) :=
  delegates_never_overlap (fun r => r) 26 false twoWriters
    (Sys.Reachable.step _ _
      (Sys.Reachable.step _ _
        (Sys.Reachable.step _ _
          (Sys.Reachable.step _ _ (Sys.Reachable.start ())
            (Sys.Step.call _ 0 (Call.WriteFile "a.txt" [1]) rfl rfl))
          (Sys.Step.call _ 1 (Call.WriteFile "b.txt" [2]) rfl rfl))
        (Sys.Step.lock _ 0
          { call := Call.WriteFile "a.txt" [1], err := none, pos := 0, inDelegate := false }
          rfl rfl rfl rfl))
      (Sys.Step.delegateStart _ 0
        { call := Call.WriteFile "a.txt" [1], err := none, pos := 1, inDelegate := false }
        rfl rfl rfl rfl))

/-! ## The interleaving semantics against the wrappers run alone -/

/-- A thread left alone does what its wrapper does: from a live state with the
gate free and thread `t` outside the package, the steps of `t` through a call
whose delegate behaves as in `env` lead to a state that agrees with the one
the embedded wrapper ends in, in the file system, the gate, the calls of the
fatal logger, and the steps recorded with the gate at each of them. -/
theorem Sys.steps_of_run {FS R : Type} (env : Env FS R) (c : Call R) (s : Sys FS R) (t : Nat)
    (w : World FS) (hx : s.exited = false) (hidle : s.threads t = none)
    (hgate : s.gate = false) (hfs : w.fs = s.fs) (hwg : w.gate = false)
    (hwf : w.fatals = s.fatals) :
    ∃ s1 w1 steps,
      Relation.ReflTransGen
        (Sys.Step env.caseRanges env.ExitCodeFileSysErr env.fatalReturns) s s1 ∧
      (c.run env w).world = some w1 ∧
      s1.fs = w1.fs ∧ s1.gate = w1.gate ∧ s1.fatals = w1.fatals ∧
      w1.history = w.history ++ steps ∧
      s1.history = s.history ++ steps.map fun x => (t, x) := by
  have p1 : Relation.ReflTransGen
      (Sys.Step env.caseRanges env.ExitCodeFileSysErr env.fatalReturns) s _ :=
    Relation.ReflTransGen.single (Sys.Step.call s t c hx hidle)
  cases hm : c.isSelfMove
  · have p2 := p1.tail (Sys.Step.lock _ t
      { call := c, err := none, pos := 0, inDelegate := false } hx (by simp [Sys.goto])
      (by simp [Running.next, Call.script_eq, hm]) hgate)
    have p3 := p2.tail (Sys.Step.delegateStart _ t
      { call := c, err := none, pos := 1, inDelegate := false } hx
      (by simp [Sys.goto, Sys.note, Running.advance])
      (by simp [Running.next, Call.script_eq, hm]) rfl)
    have p4 := p3.tail (Sys.Step.delegateEffect _ t
      { call := c, err := none, pos := 1, inDelegate := true } (c.delegate env s.fs).2 hx
      (by simp [Sys.goto]) (by simp [Running.next, Call.script_eq, hm]) rfl)
    have p5 := p4.tail (Sys.Step.delegateReturn _ t
      { call := c, err := none, pos := 1, inDelegate := true } (c.delegate env s.fs).1.err hx
      (by simp [Sys.goto]) (by simp [Running.next, Call.script_eq, hm]) rfl)
    have p6 := p5.tail (Sys.Step.classify _ t
      { call := c, err := (c.delegate env s.fs).1.err, pos := 2, inDelegate := false } hx
      (by simp [Sys.goto, Sys.note, Running.advance])
      (by simp [Running.next, Call.script_eq, hm]))
    cases hd : isDenied env.caseRanges (c.delegate env s.fs).1.err
    · have p7 := p6.tail (Sys.Step.unlock _ t
        { call := c, err := (c.delegate env s.fs).1.err, pos := 3, inDelegate := false } hx
        (by simp [Sys.goto, Sys.note, Running.advance])
        (by simp [Running.next, Call.script_eq, hm, closingSteps, hd]) rfl)
      refine ⟨_, afterCall w (c.delegate env s.fs).2 none, _, p7, ?_, rfl, rfl,
        by simp [Sys.goto, Sys.note, afterCall, hwf], rfl, ?_⟩
      · rw [Call.run_eq env c w hwg hm, hfs, hd]
        rfl
      · simp [Sys.goto, Sys.note]
    · cases hr : env.fatalReturns
      · rw [hr] at p6
        have p7 := p6.tail (Sys.Step.fatalExit _ t
          { call := c, err := (c.delegate env s.fs).1.err, pos := 3, inDelegate := false } hx
          (by simp [Sys.goto, Sys.note, Running.advance])
          (by simp [Running.next, Call.script_eq, hm, closingSteps, hd]) rfl)
        refine ⟨_, atExit w (c.delegate env s.fs).2
          (c.fatalCall env (c.delegate env s.fs).1.err), _, p7, ?_, rfl, rfl,
          by simp [Sys.goto, Sys.note, atExit, Call.fatalCall, hwf], rfl, ?_⟩
        · rw [Call.run_eq env c w hwg hm, hfs, hd, hr]
          rfl
        · simp [Sys.goto, Sys.note]
      · rw [hr] at p6
        have p7 := p6.tail (Sys.Step.fatalReturn _ t
          { call := c, err := (c.delegate env s.fs).1.err, pos := 3, inDelegate := false } hx
          (by simp [Sys.goto, Sys.note, Running.advance])
          (by simp [Running.next, Call.script_eq, hm, closingSteps, hd]) rfl)
        have p8 := p7.tail (Sys.Step.unlock _ t
          { call := c, err := (c.delegate env s.fs).1.err, pos := 4, inDelegate := false } hx
          (by simp [Sys.goto, Sys.note, Running.advance])
          (by simp [Running.next, Call.script_eq, hm, closingSteps, hd]) rfl)
        refine ⟨_, afterCall w (c.delegate env s.fs).2
          (some (c.fatalCall env (c.delegate env s.fs).1.err)), _, p8, ?_, rfl, rfl,
          by simp [Sys.goto, Sys.note, afterCall, Call.fatalCall, hwf], rfl, ?_⟩
        · rw [Call.run_eq env c w hwg hm, hfs, hd, hr]
          rfl
        · simp [Sys.goto, Sys.note]
  · have p2 := p1.tail (Sys.Step.ret _ t
      { call := c, err := none, pos := 0, inDelegate := false } hx (by simp [Sys.goto])
      (by simp [Running.next, Call.script_eq, hm]))
    refine ⟨_, w, [], p2, ?_, hfs.symm, ?_, hwf.symm, by simp, by simp [Sys.goto]⟩
    · rw [Call.run_selfMove env c w hm]
      rfl
    · simp [Sys.goto, hgate, hwg]

end FileLock
